import Mathlib

/-
Verification development for Scar/aws_lambda.py (SCAR: Serverless
Container-aware ARchitectures).

The file shallowly embeds the configuration and packaging workflow of the
module: the name validator (the anchored regular expression match in
is_valid_name, including Python's leftmost, priority-ordered backtracking
semantics of re.match followed by the group() == input full-match test),
the AWSLambda function descriptor with its setters, the dynamic
attribute-binding pass (set_attributes), the config-file store
(check_config_file and friends), and the archive builder (create_zip_file,
zip_folder).

Python strings are modelled as Lean String / List Char (the regex uses only
ASCII classes); Python dicts (environment, tags, config sections) are
insertion-ordered association lists with in-place update, as in CPython.
The external AWS client object (an excluded collaborator) is an explicit
record of abstract functions.  scar_utils is not part of the sources; per
the spec its finish_successful_execution / finish_failed_execution
terminate the process with exit code 0 / non-zero, which is modelled by
explicit result constructors.
-/

/-! ### Character classes of the regex

The name regex is
  (arn:(aws[a-zA-Z-]*)?:lambda:)?([a-z]\x7b2\x7d(-gov)?-[a-z]+-\d\x7b1\x7d:)?(\d\x7b12\x7d:)?(function:)?([a-zA-Z0-9-_]+)(:($LATEST|[a-zA-Z0-9-_]+))?
Classes are by ASCII code point: [a-z] = 97..122, [A-Z] = 65..90,
\d = 48..57, '-' = 45, '_' = 95. -/

def isLow (c : Char) : Bool := 97 ≤ c.toNat && c.toNat ≤ 122

def isDig (c : Char) : Bool := 48 ≤ c.toNat && c.toNat ≤ 57

def isUp (c : Char) : Bool := 65 ≤ c.toNat && c.toNat ≤ 90

def isNameChar (c : Char) : Bool := isLow c || isUp c || isDig c || c.toNat = 45 || c.toNat = 95

def isAwsChar (c : Char) : Bool := isLow c || isUp c || c.toNat = 45

/-- Match a literal list of characters at the front, returning the rest. -/
def dropLit : List Char → List Char → Option (List Char)
  | [], t => some t
  | c :: cs, t =>
    match t with
    | t0 :: tr => if t0 = c then dropLit cs tr else none
    | [] => none

/-! ### The four optional leading groups of the regex

Each group is deterministic once its internal backtracking is resolved:
greedy character-class runs have a unique stopping point (the follow-up
character is never in the class), and where an inner option such as (-gov)?
matters the implementation tries the present branch first exactly as the
Python engine does, falling back to the absent branch on failure. -/

/-- Group (arn:(aws[a-zA-Z-]*)?:lambda:): the partition alternative
aws[a-zA-Z-]* is tried first (greedy), then the empty partition. -/
def segA (t : List Char) : Option (List Char) :=
  match dropLit ("arn:".toList) t with
  | none => none
  | some r =>
    match dropLit ("aws".toList) r with
    | some r2 =>
      match dropLit (":lambda:".toList) (r2.dropWhile isAwsChar) with
      | some u => some u
      | none => dropLit (":lambda:".toList) r
    | none => dropLit (":lambda:".toList) r

/-- Tail -[a-z]+-\d\x7b1\x7d: of the region group. -/
def tailB (r : List Char) : Option (List Char) :=
  match r with
  | c :: r1 =>
    if c = '-' then
      if r1.takeWhile isLow = [] then none
      else
        match r1.dropWhile isLow with
        | c2 :: dg :: c3 :: u =>
          if c2 = '-' && isDig dg && c3 = ':' then some u else none
        | _ => none
    else none
  | [] => none

/-- Group ([a-z]\x7b2\x7d(-gov)?-[a-z]+-\d\x7b1\x7d:), the region; the
(-gov)? branch is tried present-first. -/
def segB (t : List Char) : Option (List Char) :=
  match t with
  | c1 :: c2 :: r =>
    if isLow c1 && isLow c2 then
      match dropLit ("-gov".toList) r with
      | some r2 =>
        match tailB r2 with
        | some u => some u
        | none => tailB r
      | none => tailB r
    else none
  | _ => none

/-- Exactly n digits. -/
def digitsN : Nat → List Char → Option (List Char)
  | 0, t => some t
  | n + 1, t =>
    match t with
    | c :: r => if isDig c then digitsN n r else none
    | [] => none

/-- Group (\d\x7b12\x7d:), the 12-digit account id. -/
def segC (t : List Char) : Option (List Char) :=
  match digitsN 12 t with
  | some r =>
    match r with
    | c :: u => if c = ':' then some u else none
    | [] => none
  | none => none

/-- Group (function:). -/
def segD (t : List Char) : Option (List Char) :=
  dropLit ("function:".toList) t

/-- The qualifier alternation $LATEST | [a-zA-Z0-9-_]+ after the colon,
$LATEST first; none = both alternatives fail (qualifier absent). -/
def qualStep (u : List Char) : Option (List Char) :=
  match dropLit ("$LATEST".toList) u with
  | some v => some v
  | none =>
    if u.takeWhile isNameChar = [] then none
    else some (u.dropWhile isNameChar)

/-- The mandatory name ([a-zA-Z0-9-_]+) followed by the optional qualifier
(:($LATEST|[a-zA-Z0-9-_]+))?, with Python priorities: the name run is
greedy (its follow-up is never a name character, so it never gives back),
the qualifier is tried present-first. Returns the unmatched suffix. -/
def nameQ (t : List Char) : Option (List Char) :=
  if t.takeWhile isNameChar = [] then none
  else
    match t.dropWhile isNameChar with
    | c :: u =>
      if c = ':' then
        match qualStep u with
        | some v => some v
        | none => some (c :: u)
      else some (c :: u)
    | [] => some []

/-- One optional leading group: its matcher and its declarative language. -/
structure SegS where
  fn : List Char → Option (List Char)
  lang : List Char → Prop

/-- Python's backtracking search over the optional leading groups: at each
group the present branch (one segment consumed) is explored before the
absent branch, and the first overall match wins; the final component is
nameQ. Returns the unmatched suffix of the first match found, i.e.
match.group() == input iff the result is some []. -/
def runFrom : List SegS → List Char → Option (List Char)
  | [], t => nameQ t
  | f :: rest, t =>
    match f.fn t with
    | some u =>
      match runFrom rest u with
      | some r => some r
      | none => runFrom rest t
    | none => runFrom rest t

/-! ### Declarative languages of the grammar (from the spec's wording) -/

/-- A bare function-name token: letters, digits, hyphens, underscores. -/
def NameTok (l : List Char) : Prop := l ≠ [] ∧ ∀ c ∈ l, isNameChar c = true

/-- A qualifier: the literal latest marker or a version/alias token. -/
def QualTok (q : List Char) : Prop := q = "$LATEST".toList ∨ NameTok q

/-- The name segment with its optional colon-separated qualifier. -/
def NameQLang (t : List Char) : Prop :=
  ∃ nm, NameTok nm ∧ (t = nm ∨ ∃ q, QualTok q ∧ t = nm ++ ':' :: q)

/-- The partition inside the arn group: empty or aws followed by
letters/hyphens. -/
def PartOk (part : List Char) : Prop :=
  part = [] ∨ ∃ cs, part = 'a' :: 'w' :: 's' :: cs ∧ ∀ c ∈ cs, isAwsChar c = true

/-- The arn/partition group arn:<partition>:lambda: . -/
def ArnSeg (p : List Char) : Prop :=
  ∃ part, PartOk part ∧ p = "arn:".toList ++ part ++ ":lambda:".toList

/-- The optional -gov infix of the region. -/
def GovOk (gov : List Char) : Prop := gov = [] ∨ gov = "-gov".toList

/-- A region segment of shape xx[-gov]-word-digit followed by a colon. -/
def RegionSeg (p : List Char) : Prop :=
  ∃ c1 c2 gov w dg, isLow c1 = true ∧ isLow c2 = true ∧ GovOk gov ∧
    w ≠ [] ∧ (∀ c ∈ w, isLow c = true) ∧ isDig dg = true ∧
    p = c1 :: c2 :: (gov ++ '-' :: (w ++ '-' :: dg :: [':']))

/-- A 12-digit account segment followed by a colon. -/
def AccountSeg (p : List Char) : Prop :=
  ∃ ds, ds.length = 12 ∧ (∀ c ∈ ds, isDig c = true) ∧ p = ds ++ [':']

/-- The literal function: tag. -/
def FunSeg (p : List Char) : Prop := p = "function:".toList

def segAS : SegS := ⟨segA, ArnSeg⟩

def segBS : SegS := ⟨segB, RegionSeg⟩

def segCS : SegS := ⟨segC, AccountSeg⟩

def segDS : SegS := ⟨segD, FunSeg⟩

def segChain : List SegS := [segAS, segBS, segCS, segDS]

/-- The naming grammar as the spec states it: optional arn/partition
prefix, optional region segment, optional 12-digit account segment,
optional literal function: tag, then a name segment with an optional
qualifier. A bare name is the case with all optional parts empty. -/
def ValidGrammar (l : List Char) : Prop :=
  ∃ a b c d nq, (a = [] ∨ ArnSeg a) ∧ (b = [] ∨ RegionSeg b) ∧
    (c = [] ∨ AccountSeg c) ∧ (d = [] ∨ FunSeg d) ∧ NameQLang nq ∧
    l = a ++ (b ++ (c ++ (d ++ nq)))

/-- is_valid_name: false for None or empty input, otherwise anchored
regex match whose matched group must equal the whole string. -/
def is_valid_name : Option String → Bool
  | none => false
  | some s =>
    if s = "" then false
    else
      match runFrom segChain s.toList with
      | some [] => true
      | _ => false

/-- Full-match semantics of the chain: some choice of present/absent
leading groups decomposes t, with the final part in the name/qualifier
language. -/
def FullM : List SegS → List Char → Prop
  | [], t => NameQLang t
  | f :: rest, t => (∃ p u, f.lang p ∧ t = p ++ u ∧ FullM rest u) ∨ FullM rest t

/-- The matcher of a group only strips prefixes of its language. -/
def SegSound (f : SegS) : Prop :=
  ∀ t u, f.fn t = some u → ∃ p, f.lang p ∧ t = p ++ u

/-- The matcher of a group strips every prefix of its language. -/
def SegComplete (f : SegS) : Prop :=
  ∀ p u, f.lang p → f.fn (p ++ u) = some u

def ChainGood : List SegS → Prop
  | [] => True
  | f :: rest => SegSound f ∧ SegComplete f ∧ ChainGood rest

/-- The priority property making the greedy first match complete: whenever
a group can be taken at t but the skip side of the chain has a full match,
the take side either also has a full match or fails outright. -/
def StarChain : List SegS → Prop
  | [] => True
  | f :: rest =>
    (∀ t u, f.fn t = some u → FullM rest t → FullM rest u ∨ runFrom rest u = none) ∧
    StarChain rest

/-- The head of r, if any, fails the predicate. -/
def headNo (p : Char → Bool) : List Char → Prop
  | [] => True
  | c :: _ => p c = false

/-! ### The AWSLambda function descriptor -/

inductive OutputType where
  | VERBOSE
  | JSON
  | TABLE
  | PLAIN_TEXT
deriving DecidableEq

/-- The in-memory function descriptor, mirroring AWSLambda.__init__ field
for field with its defaults.  The aws_client member is kept outside the
structure and passed explicitly to the operations that consult it (it is an
excluded external collaborator).  The environment dict's values may be
Python None (e.g. IMAGE_ID when no image was set), hence Option String.
zip_file_path's tempfile.gettempdir() is the usual /tmp. -/
structure AWSLambda where
  asynchronous_call : Bool := false
  code : Option (List String) := none
  container_arguments : Option (List String) := none
  delete_all : Bool := false
  description : String := "Automatically generated lambda function"
  environment : List (String × Option String) := []
  event_source_bucket : String := ""
  event_source_key : String := ""
  event_source : Option String := none
  extra_payload : Option String := none
  function_arn : Option String := none
  handler : Option String := none
  image_id : Option String := none
  invocation_type : String := "RequestResponse"
  log_group_name : Option String := none
  log_retention_policy_in_days : Nat := 30
  log_stream_name : Option String := none
  log_type : String := "Tail"
  memory : Nat := 512
  name : Option String := none
  output : OutputType := OutputType.PLAIN_TEXT
  payload : String := "\x7b\x7d"
  preheat : Option Bool := none
  recursive : Bool := false
  region : String := "us-east-1"
  request_id : Option String := none
  role : Option String := none
  runtime : String := "python3.6"
  scar_call : Option String := none
  script : Option String := none
  tags : List (String × String) := []
  time : Nat := 300
  timeout_threshold : Nat := 10
  udocker_dir : String := "/tmp/home/.udocker"
  udocker_tarball : String := "/var/task/udocker-1.1.0-RC2.tar.gz"
  zip_file_path : String := "/tmp/function.zip"
  lambda_role : Option String := none
deriving DecidableEq

/-- The external AWS client collaborator, as abstract functions. -/
structure AWSClient where
  check_memory : Nat → Nat
  check_time : Nat → Nat
  create_function_name : String → String
  get_user_name_or_id : String

/-- The scar_utils helpers used for payload escaping (module not in the
sources; kept abstract). -/
structure ScarUtils where
  escape_string : String → String
  escape_list : List String → String

/-- Python dict assignment d[k] = v: update in place if the key is present,
else append (insertion order preserved). -/
def dictSet {α : Type} : List (String × α) → String → α → List (String × α)
  | [], k, v => [(k, v)]
  | (k', v') :: rest, k, v =>
    if k' = k then (k, v) :: rest else (k', v') :: dictSet rest k v

/-- Python dict lookup returning None when absent. -/
def dlookup {α : Type} : List (String × α) → String → Option α
  | [], _ => none
  | (k', v) :: rest, k => if k' = k then some v else dlookup rest k

/-- Truthiness of the descriptor's name (Python: None and "" are falsy). -/
def nameTruthy (d : AWSLambda) : Bool :=
  match d.name with
  | some s => s ≠ ""
  | none => false

/-! ### Setters -/

def set_asynchronous_call_parameters (d : AWSLambda) : AWSLambda :=
  { d with asynchronous_call := true, invocation_type := "Event", log_type := "None" }

def set_request_response_call_parameters (d : AWSLambda) : AWSLambda :=
  { d with asynchronous_call := false, invocation_type := "RequestResponse", log_type := "Tail" }

def set_async (d : AWSLambda) (asynchronous_call : Bool) : AWSLambda :=
  if asynchronous_call then set_asynchronous_call_parameters d
  else set_request_response_call_parameters d

/-- Outcome of invoking one setter: normal return with the new state, an
ordinary exception (caught by set_attributes' except clause; the state
carries any mutations already applied), or process termination
(scar_utils.finish_failed_execution, which is not an ordinary exception
and escapes the except clause). -/
inductive SetResult where
  | ok (d : AWSLambda)
  | err (d : AWSLambda)
  | abort
deriving DecidableEq

/-- set_name: invalid names log an error and terminate the run. -/
def set_name (d : AWSLambda) (name : String) : SetResult :=
  if is_valid_name (some name) then SetResult.ok { d with name := some name }
  else SetResult.abort

/-- set_image_id: stores the image id, then derives a default function name
only when `not hasattr(self, 'name') or self.name == ""`.  Since __init__
always assigns self.name (= None), hasattr is always true, so the
condition reduces to the name being exactly the empty string. -/
def set_image_id (client : AWSClient) (d : AWSLambda) (image_id : String) : SetResult :=
  let d1 := { d with image_id := some image_id }
  if d1.name = some "" then set_name d1 (client.create_function_name image_id)
  else SetResult.ok d1

def set_evironment_variable (d : AWSLambda) (key : String) (value : Option String) : AWSLambda :=
  { d with environment := dictSet d.environment key value }

/-- Python str.split(sep) over a character separator (sep = '='). -/
def splitOnChar (sep : Char) : List Char → List (List Char)
  | [] => [[]]
  | c :: r =>
    let res := splitOnChar sep r
    if c = sep then [] :: res
    else
      match res with
      | h :: t => (c :: h) :: t
      | [] => [[c]]

/-- v.split("=") of the environment-variable binder. -/
def pySplitEq (v : String) : List String :=
  (splitOnChar '=' v.toList).map String.mk

/-- The loop body of set_environment_variables: each entry is split on "=",
prefixed with CONT_VAR_ and stored; an entry without "=" raises IndexError
(parsed_env_var[1]) after the earlier entries were already stored. -/
def envLoop : AWSLambda → List String → SetResult
  | d, [] => SetResult.ok d
  | d, v :: rest =>
    match pySplitEq v with
    | p0 :: p1 :: _ => envLoop (set_evironment_variable d ("CONT_VAR_" ++ p0) (some p1)) rest
    | _ => SetResult.err d

def set_lambda_role (d : AWSLambda) (lambda_role : String) : AWSLambda :=
  { d with lambda_role := some lambda_role }

/-- str() of a Python bool. -/
def pyStrBool (b : Bool) : String := if b then "True" else "False"

def set_required_environment_variables (d : AWSLambda) : AWSLambda :=
  let d1 := set_evironment_variable d "UDOCKER_DIR" (some d.udocker_dir)
  let d2 := set_evironment_variable d1 "UDOCKER_TARBALL" (some d.udocker_tarball)
  let d3 := set_evironment_variable d2 "TIMEOUT_THRESHOLD" (some (toString d.timeout_threshold))
  let d4 := set_evironment_variable d3 "RECURSIVE" (some (pyStrBool d.recursive))
  set_evironment_variable d4 "IMAGE_ID" d.image_id

def set_tags (client : AWSClient) (d : AWSLambda) : AWSLambda :=
  { d with tags := dictSet (dictSet d.tags "createdby" "scar") "owner" client.get_user_name_or_id }

/-! ### Archive builder -/

/-- Truthiness of the optional init script / extra payload fields. -/
def optTruthy (o : Option String) : Bool :=
  match o with
  | some s => s ≠ ""
  | none => false

/-- zip_folder: reopen the archive in append mode and add every file found
under target_dir, with archive path 'extra/' + fn[rootlen:], where
rootlen = len(target_dir) + 1 and fn ranges over the os.walk file paths
(passed in as walkFiles since the filesystem is external). Python string
slicing fn[rootlen:] drops rootlen characters. -/
def zip_folder (zipEntries : List String) (target_dir : String) (walkFiles : List String) : List String :=
  zipEntries ++ walkFiles.map (fun fn => String.mk ("extra/".toList ++ fn.toList.drop (target_dir.length + 1)))

/-- create_zip_file: the entrypoint copy named <name>.py, the udocker
helper, the library tarball, then optionally the init script (with its
environment variable) and the extra payload tree (with its environment
variable).  Returns the archive entry names in insertion order together
with the updated descriptor. -/
def create_zip_file (n : String) (walkFiles : List String) (d : AWSLambda) : List String × AWSLambda :=
  let entries0 := [n ++ ".py", "udocker", "udocker-1.1.0-RC2.tar.gz"]
  let step1 :=
    if optTruthy d.script then
      (entries0 ++ ["init_script.sh"],
       set_evironment_variable d "INIT_SCRIPT_PATH" (some "/var/task/init_script.sh"))
    else (entries0, d)
  if optTruthy step1.2.extra_payload then
    (zip_folder step1.1 (step1.2.extra_payload.getD "") walkFiles,
     set_evironment_variable step1.2 "EXTRA_PAYLOAD" (some "/var/task/extra/"))
  else step1

/-- set_code attaches the zip bytes; with name = None Python raises a
TypeError (None + '.py') outside any except clause, crashing the run. -/
def set_code (walkFiles : List String) (d : AWSLambda) : Option AWSLambda :=
  match d.name with
  | some n =>
    let z := create_zip_file n walkFiles d
    some { z.2 with code := some z.1 }
  | none => none

/-! ### Attribute binding -/

/-- A parsed CLI argument value (argparse produces these types). -/
inductive ArgValue where
  | str (s : String)
  | bool (b : Bool)
  | nat (n : Nat)
  | strList (l : List String)
deriving DecidableEq

/-- json.dumps of a one-entry dict with a string value. -/
def jsonDumpsPair (k v : String) : String :=
  "\x7b\"" ++ k ++ "\": \"" ++ v ++ "\"\x7d"

/-- Dynamic dispatch of set_attributes: getattr(self, 'set_' + attr)
followed by the call, written as a chain of comparisons on the attribute
name.  A missing setter (AttributeError) or a setter raising an ordinary
exception yields err; set_name's validation failure terminates the run
(abort).  The argparse value of each known attribute has the setter's
expected shape (ArgValue certifies the parsed type). -/
def dispatch (client : AWSClient) (d : AWSLambda) (attr : String) (v : ArgValue) : SetResult :=
  if attr = "payload" then
    match v with
    | ArgValue.str s => SetResult.ok { d with payload := "\"" ++ s ++ "\"" }
    | _ => SetResult.err d
  else if attr = "cont_args" then
    match v with
    | ArgValue.strList l => SetResult.ok { d with container_arguments := some l }
    | _ => SetResult.err d
  else if attr = "async" then
    match v with
    | ArgValue.bool b => SetResult.ok (set_async d b)
    | _ => SetResult.err d
  else if attr = "func" then
    match v with
    | ArgValue.str s => SetResult.ok { d with scar_call := some s }
    | _ => SetResult.err d
  else if attr = "name" then
    match v with
    | ArgValue.str s => set_name d s
    | _ => SetResult.err d
  else if attr = "image_id" then
    match v with
    | ArgValue.str s => set_image_id client d s
    | _ => SetResult.err d
  else if attr = "memory" then
    match v with
    | ArgValue.nat n => SetResult.ok { d with memory := client.check_memory n }
    | _ => SetResult.err d
  else if attr = "time" then
    match v with
    | ArgValue.nat n => SetResult.ok { d with time := client.check_time n }
    | _ => SetResult.err d
  else if attr = "timeout_threshold" then
    match v with
    | ArgValue.nat n => SetResult.ok { d with timeout_threshold := n }
    | _ => SetResult.err d
  else if attr = "json" then
    match v with
    | ArgValue.bool b => SetResult.ok (if b then { d with output := OutputType.JSON } else d)
    | _ => SetResult.err d
  else if attr = "verbose" then
    match v with
    | ArgValue.bool b => SetResult.ok (if b then { d with output := OutputType.VERBOSE } else d)
    | _ => SetResult.err d
  else if attr = "script" then
    match v with
    | ArgValue.str s => SetResult.ok { d with script := some s }
    | _ => SetResult.err d
  else if attr = "event_source" then
    match v with
    | ArgValue.str s => SetResult.ok { d with event_source := some s, event_source_bucket := s }
    | _ => SetResult.err d
  else if attr = "event_source_file_name" then
    match v with
    | ArgValue.str s => SetResult.ok { d with event_source_key := s }
    | _ => SetResult.err d
  else if attr = "lambda_role" then
    match v with
    | ArgValue.str s => SetResult.ok (set_lambda_role d s)
    | _ => SetResult.err d
  else if attr = "recursive" then
    match v with
    | ArgValue.bool b => SetResult.ok { d with recursive := b }
    | _ => SetResult.err d
  else if attr = "preheat" then
    match v with
    | ArgValue.bool b => SetResult.ok { d with preheat := some b }
    | _ => SetResult.err d
  else if attr = "extra_payload" then
    match v with
    | ArgValue.str s => SetResult.ok { d with extra_payload := some s }
    | _ => SetResult.err d
  else if attr = "environment_variables" then
    match v with
    | ArgValue.strList l => envLoop d l
    | _ => SetResult.err d
  else if attr = "log_stream_name" then
    match v with
    | ArgValue.str s => SetResult.ok { d with log_stream_name := some s }
    | _ => SetResult.err d
  else if attr = "request_id" then
    match v with
    | ArgValue.str s => SetResult.ok { d with request_id := some s }
    | _ => SetResult.err d
  else if attr = "all" then
    match v with
    | ArgValue.bool b => SetResult.ok { d with delete_all := b }
    | _ => SetResult.err d
  else SetResult.err d

/-- The binding loop of set_attributes: skip absent (None) values, call the
matching setter, log-and-continue on an ordinary exception, and propagate
termination (none).  The args dict is a list of attribute/value pairs in
dict (insertion) order. -/
def bindLoop (client : AWSClient) : AWSLambda → List (String × Option ArgValue) → Option AWSLambda
  | d, [] => some d
  | d, (_, none) :: rest => bindLoop client d rest
  | d, (attr, some v) :: rest =>
    match dispatch client d attr v with
    | SetResult.ok d' => bindLoop client d' rest
    | SetResult.err d' => bindLoop client d' rest
    | SetResult.abort => none

/-- get_argument_value truthiness of an args entry. -/
def argTruthy (args : List (String × Option ArgValue)) (attr : String) : Bool :=
  match dlookup args attr with
  | some (some (ArgValue.str s)) => s ≠ ""
  | some (some (ArgValue.bool b)) => b
  | some (some (ArgValue.nat n)) => n ≠ 0
  | some (some (ArgValue.strList l)) => l ≠ []
  | _ => false

/-- The script part of the run postprocessing: when args carries a truthy
script, serialize the escaped script into the payload; reading a script
that was never stored crashes (None.read()). -/
def run_script_step (utils : ScarUtils) (args : List (String × Option ArgValue)) (d : AWSLambda) : Option AWSLambda :=
  if argTruthy args "script" then
    match d.script with
    | some sc => some { d with payload := jsonDumpsPair "script" (utils.escape_string sc) }
    | none => none
  else some d

/-- The container-arguments part of the run postprocessing. -/
def run_cont_step (utils : ScarUtils) (args : List (String × Option ArgValue)) (d : AWSLambda) : Option AWSLambda :=
  if argTruthy args "cont_args" then
    match d.container_arguments with
    | some l => some { d with payload := jsonDumpsPair "cmd_args" (utils.escape_list l) }
    | none => none
  else some d

/-- The run-operation postprocessing of set_attributes (the remote update
calls of update_function_attributes touch no local state). -/
def run_post (utils : ScarUtils) (args : List (String × Option ArgValue)) (d : AWSLambda) : Option AWSLambda :=
  match run_script_step utils args d with
  | some d1 => run_cont_step utils args d1
  | none => none

/-- After the binding pass: if a (truthy) name is set, derive the handler
and the log group name from it. -/
def derive_handler (d : AWSLambda) : AWSLambda :=
  match d.name with
  | some n =>
    if n = "" then d
    else { d with handler := some (n ++ ".lambda_handler"),
                  log_group_name := some ("/aws/lambda/" ++ n) }
  | none => d

/-- The operation-specific postprocessing of set_attributes. -/
def post_bind (client : AWSClient) (utils : ScarUtils) (walkFiles : List String)
    (args : List (String × Option ArgValue)) (d3 : AWSLambda) : Option AWSLambda :=
  if d3.scar_call = some "init" then set_code walkFiles (set_tags client d3)
  else if d3.scar_call = some "run" then run_post utils args d3
  else some d3

/-- set_attributes: the dispatch loop, then check_function_name (existence
checks delegated to the external client, no local state change), the fixed
runtime-support environment entries, the derived handler and log group
names when a name is set, and the operation-specific postprocessing.
Result none means the run terminated or crashed. -/
def set_attributes (client : AWSClient) (utils : ScarUtils) (walkFiles : List String)
    (args : List (String × Option ArgValue)) (d : AWSLambda) : Option AWSLambda :=
  match bindLoop client d args with
  | none => none
  | some d1 =>
    post_bind client utils walkFiles args (derive_handler (set_required_environment_variables d1))

/-! ### Config file store -/

def config_file_folder (home : String) : String := home ++ "/.scar"

def config_file_name : String := "scar.cfg"

def config_file_path (home : String) : String := config_file_folder home ++ "/" ++ config_file_name

/-- get_default_json_config: the seeded defaults, written through
configparser which stringifies values (insertion order preserved). -/
def get_default_json_config (d : AWSLambda) : List (String × String) :=
  [("lambda_description", d.description),
   ("lambda_memory", toString d.memory),
   ("lambda_time", toString d.time),
   ("lambda_region", d.region),
   ("lambda_role", ""),
   ("lambda_timeout_threshold", toString d.timeout_threshold)]

/-- configparser getint: int() of the stored string (digits only here). -/
def parseNat (s : String) : Option Nat :=
  if s = "" then none
  else if s.toList.all isDig then
    some (s.toList.foldl (fun acc c => 10 * acc + (c.toNat - 48)) 0)
  else none

/-- configparser getint with fallback: int() of the stored string (none =
ValueError, crashing the caller); a missing key yields the fallback. -/
def cfgGetInt (cfg : List (String × String)) (key : String) (fallback : Nat) : Option Nat :=
  match dlookup cfg key with
  | some s => parseNat s
  | none => some fallback

/-- parse_config_file_values: each key falls back to the current attribute
when missing; an unparsable integer raises ValueError (none = crash). -/
def parse_config_file_values (cfg : List (String × String)) (d : AWSLambda) : Option AWSLambda :=
  match cfgGetInt cfg "lambda_memory" d.memory with
  | none => none
  | some m =>
    match cfgGetInt cfg "lambda_time" d.time with
    | none => none
    | some t =>
      match cfgGetInt cfg "lambda_timeout_threshold" d.timeout_threshold with
      | none => none
      | some th =>
        some { d with
          role := (match dlookup cfg "lambda_role" with
                   | some s => some s
                   | none => d.role),
          region := (dlookup cfg "lambda_region").getD d.region,
          memory := m,
          time := t,
          description := (dlookup cfg "lambda_description").getD d.description,
          timeout_threshold := th }

/-- Python falsiness of the role attribute (not self.role or self.role == ""). -/
def roleFalsy (d : AWSLambda) : Bool :=
  match d.role with
  | none => true
  | some s => s = ""

/-- The error message of validate_lambda_configuration. -/
def roleErrorMsg (home : String) : String :=
  "Please, specify first a lambda role in the '" ++ config_file_folder home ++ "/" ++ config_file_name ++ "' file."

/-- The warning of create_default_config_file. -/
def configCreatedMsg (home : String) : String :=
  "Config file '" ++ config_file_path home ++ "' created.\nPlease, set first a valid lambda role to be used."

/-- Outcome of check_config_file.  Modelled from the spec: the
scar_utils.finish_successful_execution / finish_failed_execution helpers
(not in the sources) terminate the run with exit code 0 and with a
non-zero exit code respectively; they are represented by the exitSuccess
and exitFailure constructors. -/
inductive CheckConfigResult where
  | proceed (d : AWSLambda)
  | exitSuccess (dirCreated : Bool) (written : List (String × String)) (warning : String)
  | exitFailure (msg : String)
deriving DecidableEq

/-- The process exit code each outcome produces (none: the run goes on). -/
def exitCodeOf : CheckConfigResult → Option Nat
  | CheckConfigResult.proceed _ => none
  | CheckConfigResult.exitSuccess _ _ _ => some 0
  | CheckConfigResult.exitFailure _ => some 1

/-- validate_lambda_configuration. -/
def validate_lambda_configuration (home : String) (d : AWSLambda) : CheckConfigResult :=
  if roleFalsy d then CheckConfigResult.exitFailure (roleErrorMsg home)
  else CheckConfigResult.proceed d

/-- check_config_file: parse an existing file then validate, or bootstrap
the defaults (creating the directory, writing the file, warning the user)
and finish successfully.  existing is the config file's scar section if
the file is present.  none result = crash (unparsable integer). -/
def check_config_file (home : String) (existing : Option (List (String × String)))
    (d : AWSLambda) : Option CheckConfigResult :=
  match existing with
  | some cfg =>
    match parse_config_file_values cfg d with
    | some d' => some (validate_lambda_configuration home d')
    | none => none
  | none =>
    some (CheckConfigResult.exitSuccess true (get_default_json_config d) (configCreatedMsg home))

/-! ### Auxiliary definitions used by the theorems -/

/-- An ok or err dispatch outcome leaves the role attribute unchanged. -/
def resultPreservesRole (r : SetResult) (d : AWSLambda) : Prop :=
  match r with
  | SetResult.ok e => e.role = d.role
  | SetResult.err e => e.role = d.role
  | SetResult.abort => True

/-- A concrete external client for concrete evaluations. -/
def client0 : AWSClient :=
  ⟨fun n => n, fun n => n, fun s => s, "user1"⟩

/-- Concrete escaping helpers for concrete evaluations. -/
def utils0 : ScarUtils :=
  ⟨fun s => s, fun _ => ""⟩

/-- The descriptor produced by binding just the name "myfunc" on a fresh
descriptor (used in concrete evaluations of set_attributes). -/
def dMyfunc : AWSLambda :=
  { name := some "myfunc",
    handler := some "myfunc.lambda_handler",
    log_group_name := some "/aws/lambda/myfunc",
    environment :=
      [("UDOCKER_DIR", some "/tmp/home/.udocker"),
       ("UDOCKER_TARBALL", some "/var/task/udocker-1.1.0-RC2.tar.gz"),
       ("TIMEOUT_THRESHOLD", some "10"),
       ("RECURSIVE", some "False"),
       ("IMAGE_ID", none)] }

/-- The descriptor produced by binding just lambda_role = r1 on a fresh
descriptor (used in concrete evaluations of set_attributes). -/
def dRoleW : AWSLambda :=
  { lambda_role := some "r1",
    environment :=
      [("UDOCKER_DIR", some "/tmp/home/.udocker"),
       ("UDOCKER_TARBALL", some "/var/task/udocker-1.1.0-RC2.tar.gz"),
       ("TIMEOUT_THRESHOLD", some "10"),
       ("RECURSIVE", some "False"),
       ("IMAGE_ID", none)] }

/-- A descriptor with an init script and an extra-payload directory (used
in concrete evaluations of create_zip_file). -/
def dZipW : AWSLambda := { script := some "s.sh", extra_payload := some "p" }

/-! ### Generic helper lemmas -/

theorem dlookup_dictSet_self {α : Type} (env : List (String × α)) (k : String) (v : α) :
    dlookup (dictSet env k v) k = some v := by
  induction env with
  | nil => simp [dictSet, dlookup]
  | cons p rest ih =>
    obtain ⟨k', v'⟩ := p
    by_cases h : k' = k
    · subst h; simp [dictSet, dlookup]
    · simp [dictSet, dlookup, h, ih]

theorem dlookup_dictSet_ne {α : Type} (env : List (String × α)) (k k' : String) (v : α)
    (h : k ≠ k') : dlookup (dictSet env k' v) k = dlookup env k := by
  induction env with
  | nil => simp [dictSet, dlookup, Ne.symm h]
  | cons p rest ih =>
    obtain ⟨k0, v0⟩ := p
    by_cases h0 : k0 = k'
    · subst h0; simp [dictSet, dlookup, Ne.symm h]
    · by_cases h1 : k0 = k
      · subst h1; simp [dictSet, dlookup, h0]
      · simp [dictSet, dlookup, h0, h1, ih]

theorem dictSet_length_of_absent {α : Type} (env : List (String × α)) (k : String) (v : α)
    (h : dlookup env k = none) : (dictSet env k v).length = env.length + 1 := by
  induction env with
  | nil => simp [dictSet]
  | cons p rest ih =>
    obtain ⟨k', v'⟩ := p
    by_cases h0 : k' = k
    · subst h0; simp [dlookup] at h
    · simp [dlookup, h0] at h
      simp [dictSet, h0, ih h]

theorem dlookup_eq_none_iff {α : Type} (env : List (String × α)) (k : String) :
    dlookup env k = none ↔ k ∉ env.map Prod.fst := by
  induction env with
  | nil => simp [dlookup]
  | cons p rest ih =>
    obtain ⟨k0, v0⟩ := p
    simp only [dlookup, List.map_cons, List.mem_cons]
    by_cases h0 : k0 = k
    · subst h0; simp
    · rw [if_neg h0, ih]
      constructor
      · intro h hc
        rcases hc with hc | hc
        · exact h0 hc.symm
        · exact h hc
      · intro h hc
        exact h (Or.inr hc)

theorem keys_dictSet_absent {α : Type} (env : List (String × α)) (k : String) (v : α)
    (h : dlookup env k = none) :
    (dictSet env k v).map Prod.fst = env.map Prod.fst ++ [k] := by
  induction env with
  | nil => simp [dictSet]
  | cons p rest ih =>
    obtain ⟨k0, v0⟩ := p
    by_cases h0 : k0 = k
    · subst h0; simp [dlookup] at h
    · simp [dlookup, h0] at h
      simp [dictSet, h0, ih h]

theorem keys_dictSet_present {α : Type} (env : List (String × α)) (k : String) (v w : α)
    (h : dlookup env k = some w) :
    (dictSet env k v).map Prod.fst = env.map Prod.fst := by
  induction env with
  | nil => simp [dlookup] at h
  | cons p rest ih =>
    obtain ⟨k0, v0⟩ := p
    by_cases h0 : k0 = k
    · subst h0; simp [dictSet]
    · simp [dlookup, h0] at h
      simp [dictSet, h0, ih h]

theorem dictSet_keys_nodup {α : Type} (env : List (String × α)) (k : String) (v : α)
    (h : (env.map Prod.fst).Nodup) : ((dictSet env k v).map Prod.fst).Nodup := by
  cases hdl : dlookup env k with
  | none =>
    rw [keys_dictSet_absent env k v hdl]
    have hk : k ∉ env.map Prod.fst := (dlookup_eq_none_iff env k).mp hdl
    simp [List.nodup_append, h, hk]
  | some w =>
    rw [keys_dictSet_present env k v w hdl]
    exact h

/-! ### Claim theorems -/

/-- Claim C3: setting asynchronous mode true sets the async flag,
invocation type Event and log type None; setting it false sets the
synchronous values; and from the initial synchronous state, toggling on
and off restores invocation_type and log_type exactly. -/
theorem set_async_fields_and_roundtrip (d : AWSLambda) :
    (set_async d true).asynchronous_call = true ∧
    (set_async d true).invocation_type = "Event" ∧
    (set_async d true).log_type = "None" ∧
    (set_async d false).asynchronous_call = false ∧
    (set_async d false).invocation_type = "RequestResponse" ∧
    (set_async d false).log_type = "Tail" ∧
    (d.invocation_type = "RequestResponse" → d.log_type = "Tail" →
      (set_async (set_async d true) false).invocation_type = d.invocation_type ∧
      (set_async (set_async d true) false).log_type = d.log_type) := by
  refine ⟨rfl, rfl, rfl, rfl, rfl, rfl, fun h1 h2 => ⟨?_, ?_⟩⟩
  · simp [set_async, set_asynchronous_call_parameters,
      set_request_response_call_parameters, h1]
  · simp [set_async, set_asynchronous_call_parameters,
      set_request_response_call_parameters, h2]

theorem set_async_fields_and_roundtrip_witness :
    (({} : AWSLambda).invocation_type = "RequestResponse" ∧
     ({} : AWSLambda).log_type = "Tail") ∧
    ((set_async (set_async {} true) false).invocation_type = ({} : AWSLambda).invocation_type ∧
     (set_async (set_async {} true) false).log_type = ({} : AWSLambda).log_type) :=
  ⟨⟨rfl, rfl⟩, (set_async_fields_and_roundtrip {}).2.2.2.2.2.2 rfl rfl⟩

/-- Claim C7: binding FOO=bar yields exactly the single entry
CONT_VAR_FOO = bar; binding the same user key twice overwrites instead of
duplicating; and the dict update keeps environment keys unique. -/
theorem env_binding_prefix_overwrite :
    envLoop ({} : AWSLambda) ["FOO=bar"] =
      SetResult.ok { ({} : AWSLambda) with environment := [("CONT_VAR_FOO", some "bar")] } ∧
    envLoop ({} : AWSLambda) ["FOO=bar", "FOO=baz"] =
      SetResult.ok { ({} : AWSLambda) with environment := [("CONT_VAR_FOO", some "baz")] } ∧
    (∀ (env : List (String × Option String)) (k : String) (v : Option String),
      (env.map Prod.fst).Nodup → ((dictSet env k v).map Prod.fst).Nodup) := by
  refine ⟨rfl, rfl, fun env k v h => dictSet_keys_nodup env k v h⟩

theorem env_binding_prefix_overwrite_witness :
    ([("CONT_VAR_FOO", some "bar")].map (Prod.fst : String × Option String → String)).Nodup ∧
    ((dictSet [("CONT_VAR_FOO", some "bar")] "CONT_VAR_FOO"
        (some "baz")).map Prod.fst).Nodup :=
  ⟨by decide, env_binding_prefix_overwrite.2.2 [("CONT_VAR_FOO", some "bar")]
    "CONT_VAR_FOO" (some "baz") (by decide)⟩

/-- Claim C9: during attribute binding, an attribute whose setter is
missing or raises an ordinary exception is logged and skipped, and the
loop continues with the remaining attributes. -/
theorem bind_continues_on_error (client : AWSClient) (d d' : AWSLambda) (attr : String)
    (v : ArgValue) (rest : List (String × Option ArgValue))
    (h : dispatch client d attr v = SetResult.err d') :
    bindLoop client d ((attr, some v) :: rest) = bindLoop client d' rest := by
  simp [bindLoop, h]

theorem bind_continues_on_error_witness :
    dispatch client0 ({} : AWSLambda) "bogus" (ArgValue.str "x") = SetResult.err ({} : AWSLambda) ∧
    bindLoop client0 ({} : AWSLambda) [("bogus", some (ArgValue.str "x"))] =
      bindLoop client0 ({} : AWSLambda) [] :=
  ⟨rfl, bind_continues_on_error client0 {} {} "bogus" (ArgValue.str "x") [] rfl⟩

/-- Claim C8 (code bug): set_image_id never derives a default function
name on a fresh descriptor because __init__ sets name = None while the
guard only checks name == ""; on the failing input (fresh descriptor,
image grycap/cowsay) the name stays None and no create_function_name
derivation happens, and a descriptor with an explicitly given name also
keeps it unchanged. -/
theorem set_image_id_no_name_derivation :
    set_image_id client0 ({} : AWSLambda) "grycap/cowsay" =
      SetResult.ok { ({} : AWSLambda) with image_id := some "grycap/cowsay" } ∧
    ({} : AWSLambda).name = none ∧
    ({ ({} : AWSLambda) with image_id := some "grycap/cowsay" } : AWSLambda).name = none ∧
    set_image_id client0 { ({} : AWSLambda) with name := some "given" } "img" =
      SetResult.ok { ({} : AWSLambda) with name := some "given", image_id := some "img" } :=
  ⟨rfl, rfl, rfl, rfl⟩

/-- Claim C4: with the config file absent, check_config_file creates the
directory, writes a file seeded with the built-in defaults (empty role,
memory 512, time 300, region us-east-1, the default description,
timeout-threshold 10), logs the warning asking for a role, and terminates
the run with exit code 0. -/
theorem check_config_file_absent_bootstrap (home : String) :
    check_config_file home none ({} : AWSLambda) =
      some (CheckConfigResult.exitSuccess true (get_default_json_config {}) (configCreatedMsg home)) ∧
    dlookup (get_default_json_config ({} : AWSLambda)) "lambda_role" = some "" ∧
    dlookup (get_default_json_config ({} : AWSLambda)) "lambda_memory" = some "512" ∧
    dlookup (get_default_json_config ({} : AWSLambda)) "lambda_time" = some "300" ∧
    dlookup (get_default_json_config ({} : AWSLambda)) "lambda_region" = some "us-east-1" ∧
    dlookup (get_default_json_config ({} : AWSLambda)) "lambda_description" =
      some "Automatically generated lambda function" ∧
    dlookup (get_default_json_config ({} : AWSLambda)) "lambda_timeout_threshold" = some "10" ∧
    configCreatedMsg home =
      "Config file '" ++ home ++ "/.scar/scar.cfg' created.\nPlease, set first a valid lambda role to be used." ∧
    exitCodeOf (CheckConfigResult.exitSuccess true (get_default_json_config {}) (configCreatedMsg home)) =
      some 0 := by
  refine ⟨rfl, by decide, by decide, by decide, by decide, by decide, by decide, ?_, rfl⟩
  simp [configCreatedMsg, config_file_path, config_file_folder, config_file_name,
    String.append_assoc]

/-- Claim C5: writing the default config and reading it back preserves
description, memory, time, region and timeout threshold (the integers as
integers), with the role read back empty; and any load whose role comes
back empty or missing logs the error naming the config file path and
terminates the run with a non-zero exit code. -/
theorem config_roundtrip_and_role_validation (home : String) :
    parse_config_file_values (get_default_json_config ({} : AWSLambda)) ({} : AWSLambda) =
      some { ({} : AWSLambda) with role := some "" } ∧
    ({ ({} : AWSLambda) with role := some "" } : AWSLambda).memory = ({} : AWSLambda).memory ∧
    ({ ({} : AWSLambda) with role := some "" } : AWSLambda).time = ({} : AWSLambda).time ∧
    ({ ({} : AWSLambda) with role := some "" } : AWSLambda).timeout_threshold =
      ({} : AWSLambda).timeout_threshold ∧
    ({ ({} : AWSLambda) with role := some "" } : AWSLambda).description = ({} : AWSLambda).description ∧
    ({ ({} : AWSLambda) with role := some "" } : AWSLambda).region = ({} : AWSLambda).region ∧
    check_config_file home (some (get_default_json_config ({} : AWSLambda))) ({} : AWSLambda) =
      some (CheckConfigResult.exitFailure (roleErrorMsg home)) ∧
    roleErrorMsg home =
      "Please, specify first a lambda role in the '" ++ home ++ "/.scar/scar.cfg' file." ∧
    exitCodeOf (CheckConfigResult.exitFailure (roleErrorMsg home)) = some 1 ∧
    (∀ (cfg : List (String × String)) (d d' : AWSLambda),
      parse_config_file_values cfg d = some d' → roleFalsy d' = true →
      check_config_file home (some cfg) d = some (CheckConfigResult.exitFailure (roleErrorMsg home))) := by
  refine ⟨by decide, rfl, rfl, rfl, rfl, rfl, ?_, ?_, rfl, ?_⟩
  · have hp : parse_config_file_values (get_default_json_config ({} : AWSLambda)) ({} : AWSLambda) =
        some { ({} : AWSLambda) with role := some "" } := by decide
    simp [check_config_file, hp, validate_lambda_configuration, roleFalsy]
  · simp [roleErrorMsg, config_file_folder, config_file_name, String.append_assoc]
  · intro cfg d d' hp hr
    simp [check_config_file, hp, validate_lambda_configuration, hr]

theorem config_roundtrip_and_role_validation_witness :
    (parse_config_file_values (get_default_json_config ({} : AWSLambda)) ({} : AWSLambda) =
       some { ({} : AWSLambda) with role := some "" } ∧
     roleFalsy { ({} : AWSLambda) with role := some "" } = true) ∧
    check_config_file "/home/user" (some (get_default_json_config ({} : AWSLambda))) ({} : AWSLambda) =
      some (CheckConfigResult.exitFailure (roleErrorMsg "/home/user")) :=
  ⟨⟨by decide, rfl⟩,
   (config_roundtrip_and_role_validation "/home/user").2.2.2.2.2.2.2.2.2
     (get_default_json_config {}) {} { ({} : AWSLambda) with role := some "" }
     (by decide) rfl⟩

/-! ### Role-frame lemmas -/

theorem resultPreservesRole_trans (r : SetResult) (d d' : AWSLambda)
    (h1 : resultPreservesRole r d') (h2 : d'.role = d.role) : resultPreservesRole r d := by
  cases r with
  | ok e => simp [resultPreservesRole] at h1 ⊢; rw [h1, h2]
  | err e => simp [resultPreservesRole] at h1 ⊢; rw [h1, h2]
  | abort => trivial

theorem envLoop_pres (l : List String) : ∀ d : AWSLambda, resultPreservesRole (envLoop d l) d := by
  induction l with
  | nil => intro d; simp [envLoop, resultPreservesRole]
  | cons v rest ih =>
    intro d
    simp only [envLoop]
    cases hsp : pySplitEq v with
    | nil => simp [resultPreservesRole]
    | cons p0 t =>
      cases t with
      | nil => simp [resultPreservesRole]
      | cons p1 t2 =>
        exact resultPreservesRole_trans _ _ _
          (ih (set_evironment_variable d ("CONT_VAR_" ++ p0) (some p1))) rfl

set_option maxHeartbeats 1000000

theorem dispatch_role (client : AWSClient) (d : AWSLambda) (attr : String) (v : ArgValue) :
    resultPreservesRole (dispatch client d attr v) d := by
  by_cases h1 : attr = "payload"
  · rw [h1]
    cases v with
    | str s =>
      rfl
    | bool b =>
      rfl
    | nat n =>
      rfl
    | strList l =>
      rfl
  by_cases h2 : attr = "cont_args"
  · rw [h2]
    cases v with
    | str s =>
      rfl
    | bool b =>
      rfl
    | nat n =>
      rfl
    | strList l =>
      rfl
  by_cases h3 : attr = "async"
  · rw [h3]
    cases v with
    | str s =>
      rfl
    | bool b =>
      cases b <;> rfl
    | nat n =>
      rfl
    | strList l =>
      rfl
  by_cases h4 : attr = "func"
  · rw [h4]
    cases v with
    | str s =>
      rfl
    | bool b =>
      rfl
    | nat n =>
      rfl
    | strList l =>
      rfl
  by_cases h5 : attr = "name"
  · rw [h5]
    cases v with
    | str s =>
      show resultPreservesRole (set_name d s) d
      unfold set_name
      split
      · rfl
      · trivial
    | bool b =>
      rfl
    | nat n =>
      rfl
    | strList l =>
      rfl
  by_cases h6 : attr = "image_id"
  · rw [h6]
    cases v with
    | str s =>
      show resultPreservesRole (set_image_id client d s) d
      simp only [set_image_id, set_name]
      repeat' split
      all_goals first | rfl | trivial
    | bool b =>
      rfl
    | nat n =>
      rfl
    | strList l =>
      rfl
  by_cases h7 : attr = "memory"
  · rw [h7]
    cases v with
    | str s =>
      rfl
    | bool b =>
      rfl
    | nat n =>
      rfl
    | strList l =>
      rfl
  by_cases h8 : attr = "time"
  · rw [h8]
    cases v with
    | str s =>
      rfl
    | bool b =>
      rfl
    | nat n =>
      rfl
    | strList l =>
      rfl
  by_cases h9 : attr = "timeout_threshold"
  · rw [h9]
    cases v with
    | str s =>
      rfl
    | bool b =>
      rfl
    | nat n =>
      rfl
    | strList l =>
      rfl
  by_cases h10 : attr = "json"
  · rw [h10]
    cases v with
    | str s =>
      rfl
    | bool b =>
      cases b <;> rfl
    | nat n =>
      rfl
    | strList l =>
      rfl
  by_cases h11 : attr = "verbose"
  · rw [h11]
    cases v with
    | str s =>
      rfl
    | bool b =>
      cases b <;> rfl
    | nat n =>
      rfl
    | strList l =>
      rfl
  by_cases h12 : attr = "script"
  · rw [h12]
    cases v with
    | str s =>
      rfl
    | bool b =>
      rfl
    | nat n =>
      rfl
    | strList l =>
      rfl
  by_cases h13 : attr = "event_source"
  · rw [h13]
    cases v with
    | str s =>
      rfl
    | bool b =>
      rfl
    | nat n =>
      rfl
    | strList l =>
      rfl
  by_cases h14 : attr = "event_source_file_name"
  · rw [h14]
    cases v with
    | str s =>
      rfl
    | bool b =>
      rfl
    | nat n =>
      rfl
    | strList l =>
      rfl
  by_cases h15 : attr = "lambda_role"
  · rw [h15]
    cases v with
    | str s =>
      rfl
    | bool b =>
      rfl
    | nat n =>
      rfl
    | strList l =>
      rfl
  by_cases h16 : attr = "recursive"
  · rw [h16]
    cases v with
    | str s =>
      rfl
    | bool b =>
      rfl
    | nat n =>
      rfl
    | strList l =>
      rfl
  by_cases h17 : attr = "preheat"
  · rw [h17]
    cases v with
    | str s =>
      rfl
    | bool b =>
      rfl
    | nat n =>
      rfl
    | strList l =>
      rfl
  by_cases h18 : attr = "extra_payload"
  · rw [h18]
    cases v with
    | str s =>
      rfl
    | bool b =>
      rfl
    | nat n =>
      rfl
    | strList l =>
      rfl
  by_cases h19 : attr = "environment_variables"
  · rw [h19]
    cases v with
    | str s =>
      rfl
    | bool b =>
      rfl
    | nat n =>
      rfl
    | strList l =>
      exact envLoop_pres l d
  by_cases h20 : attr = "log_stream_name"
  · rw [h20]
    cases v with
    | str s =>
      rfl
    | bool b =>
      rfl
    | nat n =>
      rfl
    | strList l =>
      rfl
  by_cases h21 : attr = "request_id"
  · rw [h21]
    cases v with
    | str s =>
      rfl
    | bool b =>
      rfl
    | nat n =>
      rfl
    | strList l =>
      rfl
  by_cases h22 : attr = "all"
  · rw [h22]
    cases v with
    | str s =>
      rfl
    | bool b =>
      rfl
    | nat n =>
      rfl
    | strList l =>
      rfl
  unfold dispatch
  rw [if_neg h1, if_neg h2, if_neg h3, if_neg h4, if_neg h5, if_neg h6, if_neg h7, if_neg h8, if_neg h9, if_neg h10, if_neg h11, if_neg h12, if_neg h13, if_neg h14, if_neg h15, if_neg h16, if_neg h17, if_neg h18, if_neg h19, if_neg h20, if_neg h21, if_neg h22]
  rfl

set_option maxHeartbeats 400000

theorem dispatch_role_ok (client : AWSClient) (d e : AWSLambda) (attr : String) (v : ArgValue)
    (h : dispatch client d attr v = SetResult.ok e) : e.role = d.role := by
  have hr := dispatch_role client d attr v
  rw [h] at hr
  exact hr

theorem dispatch_role_err (client : AWSClient) (d e : AWSLambda) (attr : String) (v : ArgValue)
    (h : dispatch client d attr v = SetResult.err e) : e.role = d.role := by
  have hr := dispatch_role client d attr v
  rw [h] at hr
  exact hr

theorem bindLoop_role (args : List (String × Option ArgValue)) :
    ∀ (client : AWSClient) (d d' : AWSLambda),
      bindLoop client d args = some d' → d'.role = d.role := by
  induction args with
  | nil =>
    intro client d d' h
    simp only [bindLoop, Option.some.injEq] at h
    rw [← h]
  | cons p rest ih =>
    intro client d d' h
    obtain ⟨attr, vo⟩ := p
    cases vo with
    | none =>
      simp only [bindLoop] at h
      exact ih client d d' h
    | some v =>
      simp only [bindLoop] at h
      cases hd : dispatch client d attr v with
      | ok e =>
        rw [hd] at h
        rw [ih client e d' h]
        exact dispatch_role_ok client d e attr v hd
      | err e =>
        rw [hd] at h
        rw [ih client e d' h]
        exact dispatch_role_err client d e attr v hd
      | abort => rw [hd] at h; cases h

theorem set_required_environment_variables_role (d : AWSLambda) :
    (set_required_environment_variables d).role = d.role := rfl

theorem set_tags_role (client : AWSClient) (d : AWSLambda) :
    (set_tags client d).role = d.role := rfl

theorem create_zip_file_role (n : String) (w : List String) (d : AWSLambda) :
    (create_zip_file n w d).2.role = d.role := by
  unfold create_zip_file
  dsimp only
  split <;> split <;> rfl

theorem set_code_role (w : List String) (d e : AWSLambda)
    (h : set_code w d = some e) : e.role = d.role := by
  unfold set_code at h
  cases hn : d.name with
  | none => rw [hn] at h; cases h
  | some n =>
    rw [hn] at h
    simp only [Option.some.injEq] at h
    rw [← h]
    exact create_zip_file_role n w d

theorem run_script_step_role (utils : ScarUtils) (args : List (String × Option ArgValue))
    (d e : AWSLambda) (h : run_script_step utils args d = some e) : e.role = d.role := by
  unfold run_script_step at h
  split at h
  · split at h
    · cases h; rfl
    · cases h
  · cases h; rfl

theorem run_cont_step_role (utils : ScarUtils) (args : List (String × Option ArgValue))
    (d e : AWSLambda) (h : run_cont_step utils args d = some e) : e.role = d.role := by
  unfold run_cont_step at h
  split at h
  · split at h
    · cases h; rfl
    · cases h
  · cases h; rfl

theorem run_post_role (utils : ScarUtils) (args : List (String × Option ArgValue))
    (d e : AWSLambda) (h : run_post utils args d = some e) : e.role = d.role := by
  unfold run_post at h
  cases hs : run_script_step utils args d with
  | none => rw [hs] at h; cases h
  | some d1 =>
    rw [hs] at h
    exact (run_cont_step_role utils args d1 e h).trans (run_script_step_role utils args d d1 hs)

theorem derive_handler_role (d : AWSLambda) : (derive_handler d).role = d.role := by
  unfold derive_handler
  split
  · split <;> rfl
  · rfl

theorem post_bind_role (client : AWSClient) (utils : ScarUtils) (walk : List String)
    (args : List (String × Option ArgValue)) (d3 d' : AWSLambda)
    (h : post_bind client utils walk args d3 = some d') : d'.role = d3.role := by
  unfold post_bind at h
  split at h
  · exact (set_code_role walk (set_tags client d3) d' h).trans (set_tags_role client d3)
  · split at h
    · exact run_post_role utils args d3 d' h
    · cases h; rfl

theorem set_attributes_role (client : AWSClient) (utils : ScarUtils) (walk : List String)
    (args : List (String × Option ArgValue)) (d d' : AWSLambda)
    (h : set_attributes client utils walk args d = some d') : d'.role = d.role := by
  unfold set_attributes at h
  cases hb : bindLoop client d args with
  | none => rw [hb] at h; cases h
  | some d1 =>
    rw [hb] at h
    have h2 := post_bind_role client utils walk args _ d' h
    rw [h2, derive_handler_role, set_required_environment_variables_role]
    exact bindLoop_role args client d d1 hb

theorem roleFalsy_congr (d d' : AWSLambda) (h : d'.role = d.role) :
    roleFalsy d' = roleFalsy d := by
  simp [roleFalsy, h]

theorem validate_fail_iff (home : String) (d : AWSLambda) :
    validate_lambda_configuration home d = CheckConfigResult.exitFailure (roleErrorMsg home) ↔
      roleFalsy d = true := by
  unfold validate_lambda_configuration
  by_cases h : roleFalsy d <;> simp [h]

/-- Claim C10: set_lambda_role stores into the separate lambda_role
attribute and never touches role; the whole CLI attribute pass preserves
role, so the role validation (which reads only role, assigned solely by
config-file parsing) is neither satisfied nor altered by it. -/
theorem lambda_role_frame :
    (∀ (d : AWSLambda) (s : String),
      (set_lambda_role d s).role = d.role ∧ (set_lambda_role d s).lambda_role = some s) ∧
    (∀ (home : String) (d : AWSLambda),
      (validate_lambda_configuration home d = CheckConfigResult.exitFailure (roleErrorMsg home) ↔
        roleFalsy d = true)) ∧
    (∀ (client : AWSClient) (utils : ScarUtils) (walk : List String)
       (args : List (String × Option ArgValue)) (d d' : AWSLambda),
      set_attributes client utils walk args d = some d' →
      d'.role = d.role ∧ roleFalsy d' = roleFalsy d ∧
      (∀ home : String,
        validate_lambda_configuration home d' = CheckConfigResult.exitFailure (roleErrorMsg home) ↔
        validate_lambda_configuration home d = CheckConfigResult.exitFailure (roleErrorMsg home))) ∧
    (∀ (cfg : List (String × String)) (d d' : AWSLambda),
      parse_config_file_values cfg d = some d' →
      d'.role = (match dlookup cfg "lambda_role" with
                 | some s => some s
                 | none => d.role)) := by
  refine ⟨fun d s => ⟨rfl, rfl⟩, fun home d => validate_fail_iff home d, ?_, ?_⟩
  · intro client utils walk args d d' h
    have hrole := set_attributes_role client utils walk args d d' h
    have hfalsy := roleFalsy_congr d d' hrole
    refine ⟨hrole, hfalsy, fun home => ?_⟩
    rw [validate_fail_iff, validate_fail_iff, hfalsy]
  · intro cfg d d' h
    unfold parse_config_file_values at h
    repeat' split at h
    all_goals
      first
        | (simp only [Option.some.injEq] at h
           subst h
           rfl)
        | cases h

theorem lambda_role_frame_witness :
    set_attributes client0 utils0 [] [("lambda_role", some (ArgValue.str "r1"))] ({} : AWSLambda) =
      some dRoleW ∧
    dRoleW.role = ({} : AWSLambda).role ∧
    roleFalsy dRoleW = roleFalsy ({} : AWSLambda) ∧
    dRoleW.lambda_role = some "r1" :=
  ⟨rfl,
   (lambda_role_frame.2.2.1 client0 utils0 [] [("lambda_role", some (ArgValue.str "r1"))]
      ({} : AWSLambda) dRoleW rfl).1,
   (lambda_role_frame.2.2.1 client0 utils0 [] [("lambda_role", some (ArgValue.str "r1"))]
      ({} : AWSLambda) dRoleW rfl).2.1,
   rfl⟩

/-! ### Name/handler/log-group preservation through the postprocessing -/

theorem create_zip_file_fields (n : String) (w : List String) (d : AWSLambda) :
    (create_zip_file n w d).2.name = d.name ∧
    (create_zip_file n w d).2.handler = d.handler ∧
    (create_zip_file n w d).2.log_group_name = d.log_group_name := by
  unfold create_zip_file
  dsimp only
  split <;> split <;> exact ⟨rfl, rfl, rfl⟩

theorem set_code_fields (w : List String) (d e : AWSLambda) (h : set_code w d = some e) :
    e.name = d.name ∧ e.handler = d.handler ∧ e.log_group_name = d.log_group_name := by
  unfold set_code at h
  cases hn : d.name with
  | none => rw [hn] at h; cases h
  | some n =>
    rw [hn] at h
    simp only [Option.some.injEq] at h
    subst h
    exact (create_zip_file_fields n w d).imp (fun hh => hh.trans hn)
      (fun hh => hh)

theorem run_script_step_fields (utils : ScarUtils) (args : List (String × Option ArgValue))
    (d e : AWSLambda) (h : run_script_step utils args d = some e) :
    e.name = d.name ∧ e.handler = d.handler ∧ e.log_group_name = d.log_group_name := by
  unfold run_script_step at h
  split at h
  · split at h
    · cases h; exact ⟨rfl, rfl, rfl⟩
    · cases h
  · cases h; exact ⟨rfl, rfl, rfl⟩

theorem run_cont_step_fields (utils : ScarUtils) (args : List (String × Option ArgValue))
    (d e : AWSLambda) (h : run_cont_step utils args d = some e) :
    e.name = d.name ∧ e.handler = d.handler ∧ e.log_group_name = d.log_group_name := by
  unfold run_cont_step at h
  split at h
  · split at h
    · cases h; exact ⟨rfl, rfl, rfl⟩
    · cases h
  · cases h; exact ⟨rfl, rfl, rfl⟩

theorem run_post_fields (utils : ScarUtils) (args : List (String × Option ArgValue))
    (d e : AWSLambda) (h : run_post utils args d = some e) :
    e.name = d.name ∧ e.handler = d.handler ∧ e.log_group_name = d.log_group_name := by
  unfold run_post at h
  cases hs : run_script_step utils args d with
  | none => rw [hs] at h; cases h
  | some d1 =>
    rw [hs] at h
    obtain ⟨a1, a2, a3⟩ := run_cont_step_fields utils args d1 e h
    obtain ⟨b1, b2, b3⟩ := run_script_step_fields utils args d d1 hs
    exact ⟨a1.trans b1, a2.trans b2, a3.trans b3⟩

theorem post_bind_fields (client : AWSClient) (utils : ScarUtils) (walk : List String)
    (args : List (String × Option ArgValue)) (d3 d' : AWSLambda)
    (h : post_bind client utils walk args d3 = some d') :
    d'.name = d3.name ∧ d'.handler = d3.handler ∧ d'.log_group_name = d3.log_group_name := by
  unfold post_bind at h
  split at h
  · exact set_code_fields walk (set_tags client d3) d' h
  · split at h
    · exact run_post_fields utils args d3 d' h
    · cases h; exact ⟨rfl, rfl, rfl⟩

/-- Claim C6 (amended): after the attribute-binding pass, a descriptor with
a set (truthy) name has handler <name>.lambda_handler (not .entrypoint as
the spec writes) and log group /aws/lambda/<name>; neither field has a
setter reachable from the user's attribute bag. -/
theorem set_attributes_derives_handler_log_group (client : AWSClient) (utils : ScarUtils)
    (walk : List String) (args : List (String × Option ArgValue)) (d d' : AWSLambda)
    (h : set_attributes client utils walk args d = some d') (n : String)
    (hn : d'.name = some n) (hne : n ≠ "") :
    d'.handler = some (n ++ ".lambda_handler") ∧
    d'.log_group_name = some ("/aws/lambda/" ++ n) ∧
    (∀ (d0 : AWSLambda) (v : ArgValue),
      dispatch client d0 "handler" v = SetResult.err d0 ∧
      dispatch client d0 "log_group_name" v = SetResult.err d0) := by
  refine ?_
  unfold set_attributes at h
  cases hb : bindLoop client d args with
  | none => rw [hb] at h; cases h
  | some d1 =>
    rw [hb] at h
    obtain ⟨f1, f2, f3⟩ := post_bind_fields client utils walk args _ d' h
    cases hn2 : (set_required_environment_variables d1).name with
    | none =>
      have hder : derive_handler (set_required_environment_variables d1) =
          set_required_environment_variables d1 := by
        unfold derive_handler; rw [hn2]
      rw [hder] at f1
      rw [f1, hn2] at hn
      cases hn
    | some m =>
      by_cases hm : m = ""
      · have hder : derive_handler (set_required_environment_variables d1) =
            set_required_environment_variables d1 := by
          unfold derive_handler; rw [hn2]; simp [hm]
        rw [hder] at f1
        rw [f1, hn2] at hn
        simp only [Option.some.injEq] at hn
        exact absurd (hn.symm.trans hm) hne
      · have hder : derive_handler (set_required_environment_variables d1) =
            { set_required_environment_variables d1 with
              handler := some (m ++ ".lambda_handler"),
              log_group_name := some ("/aws/lambda/" ++ m) } := by
          unfold derive_handler; rw [hn2]; simp [hm, hn2]
        rw [hder] at f1 f2 f3
        simp only at f1 f2 f3
        rw [f1, hn2] at hn
        simp only [Option.some.injEq] at hn
        subst hn
        exact ⟨f2, f3, fun d0 v => ⟨rfl, rfl⟩⟩

theorem set_attributes_derives_handler_log_group_witness :
    (set_attributes client0 utils0 [] [("name", some (ArgValue.str "myfunc"))] ({} : AWSLambda) =
       some dMyfunc ∧ dMyfunc.name = some "myfunc" ∧ "myfunc" ≠ "") ∧
    (dMyfunc.handler = some ("myfunc" ++ ".lambda_handler") ∧
     dMyfunc.log_group_name = some ("/aws/lambda/" ++ "myfunc")) :=
  ⟨⟨rfl, rfl, by decide⟩,
   ⟨(set_attributes_derives_handler_log_group client0 utils0 []
       [("name", some (ArgValue.str "myfunc"))] {} dMyfunc rfl "myfunc" rfl (by decide)).1,
    (set_attributes_derives_handler_log_group client0 utils0 []
       [("name", some (ArgValue.str "myfunc"))] {} dMyfunc rfl "myfunc" rfl (by decide)).2.1⟩⟩

/-- Claim C6 counterexample: binding name myfunc yields handler
myfunc.lambda_handler, not myfunc.entrypoint as the claim states. -/
theorem set_attributes_handler_cex :
    set_attributes client0 utils0 [] [("name", some (ArgValue.str "myfunc"))] ({} : AWSLambda) =
      some dMyfunc ∧
    dMyfunc.name = some "myfunc" ∧
    dMyfunc.handler = some "myfunc.lambda_handler" ∧
    dMyfunc.handler ≠ some "myfunc.entrypoint" :=
  ⟨rfl, rfl, rfl, by decide⟩

/-! ### String facts for the archive entry names -/

theorem ne_of_headq (a b : String) (h : a.data.head? ≠ b.data.head?) : a ≠ b :=
  fun e => h (congrArg (fun s => s.data.head?) e)

theorem ne_of_revheadq (a b : String) (h : a.data.reverse.head? ≠ b.data.reverse.head?) : a ≠ b :=
  fun e => h (congrArg (fun s => s.data.reverse.head?) e)

theorem py_revhead (n : String) : (n ++ ".py").data.reverse.head? = some 'y' := by
  show (n.data ++ ".py".data).reverse.head? = some 'y'
  rw [List.reverse_append]
  rfl

theorem py_ne_udocker (n : String) : n ++ ".py" ≠ "udocker" := by
  refine ne_of_revheadq _ _ ?_
  rw [py_revhead]
  decide

theorem py_ne_tarball (n : String) : n ++ ".py" ≠ "udocker-1.1.0-RC2.tar.gz" := by
  refine ne_of_revheadq _ _ ?_
  rw [py_revhead]
  decide

theorem py_ne_init (n : String) : n ++ ".py" ≠ "init_script.sh" := by
  refine ne_of_revheadq _ _ ?_
  rw [py_revhead]
  decide

theorem slash_mem_extra (r : String) : '/' ∈ ("extra/" ++ r).data := by
  show '/' ∈ 'e' :: 'x' :: 't' :: 'r' :: 'a' :: '/' :: r.data
  simp

theorem slash_not_mem_py (n : String) (h : '/' ∉ n.data) : '/' ∉ (n ++ ".py").data := by
  show '/' ∉ n.data ++ ".py".data
  intro hm
  rcases List.mem_append.mp hm with hm | hm
  · exact h hm
  · exact absurd hm (by decide)

theorem py_ne_extra (n : String) (h : '/' ∉ n.data) (r : String) : n ++ ".py" ≠ "extra/" ++ r := by
  intro e
  exact slash_not_mem_py n h (e ▸ slash_mem_extra r)

theorem udocker_ne_extra (r : String) : "udocker" ≠ "extra/" ++ r := by
  refine ne_of_headq _ _ ?_
  show some 'u' ≠ some 'e'
  decide

theorem tarball_ne_extra (r : String) : "udocker-1.1.0-RC2.tar.gz" ≠ "extra/" ++ r := by
  refine ne_of_headq _ _ ?_
  show some 'u' ≠ some 'e'
  decide

theorem init_ne_extra (r : String) : "init_script.sh" ≠ "extra/" ++ r := by
  refine ne_of_headq _ _ ?_
  show some 'i' ≠ some 'e'
  decide

theorem extra_inj : Function.Injective (fun r : String => "extra/" ++ r) := by
  intro r1 r2 e
  have hd : ("extra/" ++ r1).data = ("extra/" ++ r2).data := congrArg String.data e
  have hd2 : r1.data = r2.data := congrArg (fun l : List Char => l.drop 6) hd
  exact congrArg String.mk hd2

theorem count_extra_zero (x : String) (rels : List String) (hx : ∀ r : String, x ≠ "extra/" ++ r) :
    (rels.map (fun r => "extra/" ++ r)).count x = 0 := by
  refine List.count_eq_zero.mpr ?_
  intro hmem
  obtain ⟨r, _, hr⟩ := List.mem_map.mp hmem
  exact hx r hr.symm

/-- The archive path computed by zip_folder for a file dir/r is extra/r. -/
theorem arcname_eq (dir r : String) :
    String.mk ("extra/".toList ++ (dir ++ "/" ++ r).toList.drop (dir.length + 1)) = "extra/" ++ r := by
  show String.mk ("extra/".toList ++ ((dir.data ++ ['/']) ++ r.data).drop (dir.length + 1)) = "extra/" ++ r
  have h1 : dir.length + 1 = (dir.data ++ ['/']).length := by
    rw [List.length_append]
    rfl
  rw [h1, List.drop_left]
  rfl

theorem set_evironment_variable_extra_payload (d : AWSLambda) (k : String) (v : Option String) :
    (set_evironment_variable d k v).extra_payload = d.extra_payload := rfl

theorem set_evironment_variable_script (d : AWSLambda) (k : String) (v : Option String) :
    (set_evironment_variable d k v).script = d.script := rfl

/-- Claim C2: the built archive holds exactly one entrypoint entry
<name>.py, one udocker helper entry and one library-bundle entry; a
supplied init script adds exactly one entry init_script.sh and exactly one
environment variable INIT_SCRIPT_PATH; a supplied extra-payload directory
with N files adds exactly those N entries under extra/, each at its
original relative path, and registers EXTRA_PAYLOAD. -/
theorem create_zip_file_entries_spec (n dir : String) (rels : List String) (d : AWSLambda)
    (hslash : '/' ∉ n.data) (hnd : rels.Nodup)
    (hk1 : dlookup d.environment "INIT_SCRIPT_PATH" = none)
    (hk2 : dlookup d.environment "EXTRA_PAYLOAD" = none)
    (hep : d.extra_payload = none ∨ d.extra_payload = some dir) :
    (create_zip_file n (rels.map (fun r => dir ++ "/" ++ r)) d).1 =
      [n ++ ".py", "udocker", "udocker-1.1.0-RC2.tar.gz"]
        ++ (if optTruthy d.script then ["init_script.sh"] else [])
        ++ (if optTruthy d.extra_payload then rels.map (fun r => "extra/" ++ r) else []) ∧
    (create_zip_file n (rels.map (fun r => dir ++ "/" ++ r)) d).1.count (n ++ ".py") = 1 ∧
    (create_zip_file n (rels.map (fun r => dir ++ "/" ++ r)) d).1.count "udocker" = 1 ∧
    (create_zip_file n (rels.map (fun r => dir ++ "/" ++ r)) d).1.count "udocker-1.1.0-RC2.tar.gz" = 1 ∧
    (optTruthy d.script = true →
      (create_zip_file n (rels.map (fun r => dir ++ "/" ++ r)) d).1.count "init_script.sh" = 1) ∧
    (rels.map (fun r => "extra/" ++ r)).Nodup ∧
    (optTruthy d.script = true →
      dlookup (create_zip_file n (rels.map (fun r => dir ++ "/" ++ r)) d).2.environment
        "INIT_SCRIPT_PATH" = some (some "/var/task/init_script.sh")) ∧
    (optTruthy d.extra_payload = true →
      dlookup (create_zip_file n (rels.map (fun r => dir ++ "/" ++ r)) d).2.environment
        "EXTRA_PAYLOAD" = some (some "/var/task/extra/")) ∧
    (create_zip_file n (rels.map (fun r => dir ++ "/" ++ r)) d).2.environment.length =
      d.environment.length + (if optTruthy d.script then 1 else 0)
        + (if optTruthy d.extra_payload then 1 else 0) := by
  have h1 := py_ne_udocker n
  have h1s := (py_ne_udocker n).symm
  have h2 := py_ne_tarball n
  have h2s := (py_ne_tarball n).symm
  have h3 := py_ne_init n
  have h3s := (py_ne_init n).symm
  have hcz_py := count_extra_zero (n ++ ".py") rels (py_ne_extra n hslash)
  have hcz_ud := count_extra_zero "udocker" rels udocker_ne_extra
  have hcz_tb := count_extra_zero "udocker-1.1.0-RC2.tar.gz" rels tarball_ne_extra
  have hcz_in := count_extra_zero "init_script.sh" rels init_ne_extra
  have hmap : (rels.map (fun r => dir ++ "/" ++ r)).map
      (fun fn => String.mk ("extra/".toList ++ fn.toList.drop (dir.length + 1))) =
      rels.map (fun r => "extra/" ++ r) := by
    rw [List.map_map]
    show rels.map
        (fun r => String.mk ("extra/".toList ++ (dir ++ "/" ++ r).toList.drop (dir.length + 1))) = _
    rw [funext (fun r => arcname_eq dir r)]
  cases hs : optTruthy d.script with
  | false =>
    cases he : optTruthy d.extra_payload with
    | false =>
      have hE : create_zip_file n (rels.map (fun r => dir ++ "/" ++ r)) d =
          ([n ++ ".py", "udocker", "udocker-1.1.0-RC2.tar.gz"], d) := by
        simp [create_zip_file, hs, he]
      rw [hE]
      refine ⟨by simp, ?_, ?_, ?_, by simp [hs], hnd.map extra_inj, by simp [hs], by simp [he], by simp⟩
      · simp [List.count_cons, h1, h2]
      · simp [List.count_cons, h1s]
      · simp [List.count_cons, h2s]
    | true =>
      have hepd : d.extra_payload = some dir := by
        rcases hep with hep | hep
        · rw [hep] at he; simp [optTruthy] at he
        · exact hep
      have hdir : dir ≠ "" := by
        rw [hepd] at he
        simpa [optTruthy] using he
      have hE : create_zip_file n (rels.map (fun r => dir ++ "/" ++ r)) d =
          ([n ++ ".py", "udocker", "udocker-1.1.0-RC2.tar.gz"] ++ rels.map (fun r => "extra/" ++ r),
           set_evironment_variable d "EXTRA_PAYLOAD" (some "/var/task/extra/")) := by
        simp only [create_zip_file, hs, Bool.false_eq_true, if_false]
        simp only [he, if_true, hepd, Option.getD_some]
        unfold zip_folder
        rw [hmap]
        simp [optTruthy, hdir]
      rw [hE]
      refine ⟨by simp [hs, he], ?_, ?_, ?_, by simp [hs], hnd.map extra_inj, by simp [hs], ?_, ?_⟩
      · simp [List.count_append, List.count_cons, h1, h2, hcz_py]
      · simp [List.count_append, List.count_cons, h1s, hcz_ud]
      · simp [List.count_append, List.count_cons, h2s, hcz_tb]
      · intro _
        exact dlookup_dictSet_self d.environment "EXTRA_PAYLOAD" (some "/var/task/extra/")
      · show (dictSet d.environment "EXTRA_PAYLOAD" (some "/var/task/extra/")).length = _
        rw [dictSet_length_of_absent d.environment _ _ hk2]
        simp [hs, he]
  | true =>
    cases he : optTruthy d.extra_payload with
    | false =>
      have hE : create_zip_file n (rels.map (fun r => dir ++ "/" ++ r)) d =
          ([n ++ ".py", "udocker", "udocker-1.1.0-RC2.tar.gz", "init_script.sh"],
           set_evironment_variable d "INIT_SCRIPT_PATH" (some "/var/task/init_script.sh")) := by
        simp [create_zip_file, hs, he, set_evironment_variable_extra_payload]
      rw [hE]
      refine ⟨by simp [hs, he], ?_, ?_, ?_, ?_, hnd.map extra_inj, ?_, by simp [he], ?_⟩
      · simp [List.count_cons, h1, h2, h3]
      · simp [List.count_cons, h1s]
      · simp [List.count_cons, h2s]
      · intro _
        simp [List.count_cons, h3s]
      · intro _
        exact dlookup_dictSet_self d.environment "INIT_SCRIPT_PATH" (some "/var/task/init_script.sh")
      · show (dictSet d.environment "INIT_SCRIPT_PATH" (some "/var/task/init_script.sh")).length = _
        rw [dictSet_length_of_absent d.environment _ _ hk1]
        simp [hs, he]
    | true =>
      have hepd : d.extra_payload = some dir := by
        rcases hep with hep | hep
        · rw [hep] at he; simp [optTruthy] at he
        · exact hep
      have hdir : dir ≠ "" := by
        rw [hepd] at he
        simpa [optTruthy] using he
      have hE : create_zip_file n (rels.map (fun r => dir ++ "/" ++ r)) d =
          ([n ++ ".py", "udocker", "udocker-1.1.0-RC2.tar.gz", "init_script.sh"]
             ++ rels.map (fun r => "extra/" ++ r),
           set_evironment_variable
             (set_evironment_variable d "INIT_SCRIPT_PATH" (some "/var/task/init_script.sh"))
             "EXTRA_PAYLOAD" (some "/var/task/extra/")) := by
        simp only [create_zip_file, hs, if_true]
        simp only [set_evironment_variable_extra_payload, he, if_true, hepd, Option.getD_some]
        unfold zip_folder
        rw [hmap]
        simp [optTruthy, hdir]
      have hlk : dlookup (dictSet d.environment "INIT_SCRIPT_PATH"
          (some "/var/task/init_script.sh")) "EXTRA_PAYLOAD" = none := by
        rw [dlookup_dictSet_ne d.environment _ _ _ (by decide)]
        exact hk2
      rw [hE]
      refine ⟨by simp [hs, he], ?_, ?_, ?_, ?_, hnd.map extra_inj, ?_, ?_, ?_⟩
      · simp [List.count_append, List.count_cons, h1, h2, h3, hcz_py]
      · simp [List.count_append, List.count_cons, h1s, hcz_ud]
      · simp [List.count_append, List.count_cons, h2s, hcz_tb]
      · intro _
        simp [List.count_append, List.count_cons, h3s, hcz_in]
      · intro _
        show dlookup (dictSet (dictSet d.environment "INIT_SCRIPT_PATH"
            (some "/var/task/init_script.sh")) "EXTRA_PAYLOAD" (some "/var/task/extra/"))
            "INIT_SCRIPT_PATH" = some (some "/var/task/init_script.sh")
        rw [dlookup_dictSet_ne _ _ _ _ (by decide)]
        exact dlookup_dictSet_self d.environment "INIT_SCRIPT_PATH" (some "/var/task/init_script.sh")
      · intro _
        exact dlookup_dictSet_self _ "EXTRA_PAYLOAD" (some "/var/task/extra/")
      · show (dictSet (dictSet d.environment "INIT_SCRIPT_PATH"
            (some "/var/task/init_script.sh")) "EXTRA_PAYLOAD" (some "/var/task/extra/")).length = _
        rw [dictSet_length_of_absent _ _ _ hlk, dictSet_length_of_absent _ _ _ hk1]
        simp [hs, he]

theorem create_zip_file_entries_spec_witness :
    ('/' ∉ ("f" : String).data ∧ (["a.txt", "sub/b.txt"] : List String).Nodup ∧
     dlookup dZipW.environment "INIT_SCRIPT_PATH" = none ∧
     dlookup dZipW.environment "EXTRA_PAYLOAD" = none ∧
     (dZipW.extra_payload = none ∨ dZipW.extra_payload = some "p")) ∧
    (create_zip_file "f" (["a.txt", "sub/b.txt"].map (fun r => "p" ++ "/" ++ r)) dZipW).1 =
      ["f" ++ ".py", "udocker", "udocker-1.1.0-RC2.tar.gz"]
        ++ (if optTruthy dZipW.script then ["init_script.sh"] else [])
        ++ (if optTruthy dZipW.extra_payload then
              ["a.txt", "sub/b.txt"].map (fun r => "extra/" ++ r)
            else []) :=
  ⟨⟨by decide, by decide, rfl, rfl, Or.inr rfl⟩,
   (create_zip_file_entries_spec "f" "p" ["a.txt", "sub/b.txt"] dZipW (by decide) (by decide)
      rfl rfl (Or.inr rfl)).1⟩

/-! ### Utility lemmas for the name-validator proof -/

theorem takeWhile_app (p : Char → Bool) :
    ∀ a r : List Char, (∀ c ∈ a, p c = true) → headNo p r → (a ++ r).takeWhile p = a := by
  intro a
  induction a with
  | nil =>
    intro r _ hr
    cases r with
    | nil => rfl
    | cons c t =>
      have hr' : p c = false := hr
      simp [List.takeWhile_cons, hr']
  | cons c a ih =>
    intro r ha hr
    simp only [List.cons_append, List.takeWhile_cons, ha c (by simp)]
    simp [ih r (fun x hx => ha x (by simp [hx])) hr]

theorem dropWhile_app (p : Char → Bool) :
    ∀ a r : List Char, (∀ c ∈ a, p c = true) → headNo p r → (a ++ r).dropWhile p = r := by
  intro a
  induction a with
  | nil =>
    intro r _ hr
    cases r with
    | nil => rfl
    | cons c t =>
      have hr' : p c = false := hr
      simp [List.dropWhile_cons, hr']
  | cons c a ih =>
    intro r ha hr
    simp only [List.cons_append, List.dropWhile_cons, ha c (by simp)]
    simp [ih r (fun x hx => ha x (by simp [hx])) hr]

theorem dropLit_sound : ∀ lit t u : List Char, dropLit lit t = some u → t = lit ++ u := by
  intro lit
  induction lit with
  | nil =>
    intro t u h
    simp only [dropLit, Option.some.injEq] at h
    rw [h]; rfl
  | cons c cs ih =>
    intro t u h
    cases t with
    | nil => simp [dropLit] at h
    | cons t0 tr =>
      simp only [dropLit] at h
      by_cases ht0 : t0 = c
      · rw [if_pos ht0] at h
        rw [ht0, ih tr u h]
        rfl
      · rw [if_neg ht0] at h
        cases h

theorem dropLit_complete : ∀ lit u : List Char, dropLit lit (lit ++ u) = some u := by
  intro lit
  induction lit with
  | nil => intro u; rfl
  | cons c cs ih =>
    intro u
    simp only [List.cons_append, dropLit, if_pos rfl]
    exact ih u

theorem isLow_not_isDig (c : Char) (h : isLow c = true) : isDig c = false := by
  simp only [isLow, Bool.and_eq_true, decide_eq_true_eq] at h
  simp only [isDig, Bool.and_eq_true, decide_eq_true_eq]
  simp only [Bool.and_eq_false_iff, decide_eq_false_iff_not]
  omega

theorem isLow_isNameChar (c : Char) (h : isLow c = true) : isNameChar c = true := by
  simp [isNameChar, h]

theorem isDig_isNameChar (c : Char) (h : isDig c = true) : isNameChar c = true := by
  simp [isNameChar, h]

theorem nameTok_no_colon (nm : List Char) (h : NameTok nm) : ':' ∉ nm :=
  fun hc => absurd (h.2 ':' hc) (by decide)

theorem nameTok_no_dollar_head (c : Char) (q : List Char) (h : NameTok (c :: q)) : c ≠ '$' :=
  fun e => absurd (h.2 c (by simp)) (by rw [e]; decide)

theorem firstColon :
    ∀ (a1 a2 s1 s2 : List Char), a1 ++ ':' :: s1 = a2 ++ ':' :: s2 →
      ':' ∉ a1 → ':' ∉ a2 → a1 = a2 ∧ s1 = s2 := by
  intro a1
  induction a1 with
  | nil =>
    intro a2 s1 s2 h h1 h2
    cases a2 with
    | nil =>
      simp only [List.nil_append] at h
      exact ⟨rfl, by injection h⟩
    | cons b t =>
      simp only [List.nil_append, List.cons_append] at h
      injection h with hb _
      exact absurd (by rw [hb]; simp) h2
  | cons a t ih =>
    intro a2 s1 s2 h h1 h2
    cases a2 with
    | nil =>
      simp only [List.nil_append, List.cons_append] at h
      injection h with hb _
      exact absurd (by rw [← hb]; simp) h1
    | cons b t2 =>
      simp only [List.cons_append] at h
      injection h with hb hrest
      have ht := ih t2 s1 s2 hrest (fun hc => h1 (by simp [hc])) (fun hc => h2 (by simp [hc]))
      exact ⟨by rw [hb, ht.1], ht.2⟩

/-! ### nameQ against the name/qualifier language -/

theorem dropWhile_head_false (p : Char → Bool) :
    ∀ (t : List Char) (c : Char) (rest : List Char),
      t.dropWhile p = c :: rest → p c = false := by
  intro t
  induction t with
  | nil => intro c rest h; cases h
  | cons a t ih =>
    intro c rest h
    rw [List.dropWhile_cons] at h
    by_cases ha : p a = true
    · rw [if_pos ha] at h
      exact ih c rest h
    · rw [if_neg ha] at h
      injection h with h1 _
      rw [← h1]
      exact Bool.eq_false_iff.mpr ha

theorem qualStep_latest : qualStep ("$LATEST".toList) = some [] := rfl

theorem qualStep_tok (q : List Char) (h : NameTok q) : qualStep q = some [] := by
  obtain ⟨hne, hall⟩ := h
  cases q with
  | nil => exact absurd rfl hne
  | cons c q2 =>
    have hc : c ≠ '$' := nameTok_no_dollar_head c q2 ⟨hne, hall⟩
    have hdl : dropLit ("$LATEST".toList) (c :: q2) = none := if_neg hc
    have h3 : (c :: q2).takeWhile isNameChar = c :: q2 := by
      simpa using takeWhile_app isNameChar (c :: q2) [] hall trivial
    have h4 : (c :: q2).dropWhile isNameChar = [] := by
      simpa using dropWhile_app isNameChar (c :: q2) [] hall trivial
    unfold qualStep
    rw [hdl, h3, h4, if_neg (by simp)]

theorem qualStep_sound (q : List Char) (h : qualStep q = some []) :
    q = "$LATEST".toList ∨ NameTok q := by
  unfold qualStep at h
  cases hdl : dropLit ("$LATEST".toList) q with
  | some v =>
    rw [hdl] at h
    injection h with h
    subst h
    left
    simpa using dropLit_sound _ _ _ hdl
  | none =>
    rw [hdl] at h
    by_cases h2 : q.takeWhile isNameChar = []
    · rw [if_pos h2] at h; cases h
    · rw [if_neg h2] at h
      injection h with h
      right
      have hq : q.takeWhile isNameChar ++ q.dropWhile isNameChar = q :=
        List.takeWhile_append_dropWhile isNameChar q
      rw [h] at hq
      simp only [List.append_nil] at hq
      refine ⟨?_, ?_⟩
      · intro he
        rw [he] at h2
        exact h2 rfl
      · intro c hc
        rw [← hq] at hc
        exact List.mem_takeWhile_imp hc

theorem nameQ_eval (nm : List Char) (c : Char) (rest : List Char)
    (hnm : NameTok nm) (hcn : isNameChar c = false) :
    nameQ (nm ++ c :: rest) =
      (if c = ':' then
        match qualStep rest with
        | some v => some v
        | none => some (c :: rest)
      else some (c :: rest)) := by
  unfold nameQ
  rw [takeWhile_app isNameChar nm (c :: rest) hnm.2 hcn,
      dropWhile_app isNameChar nm (c :: rest) hnm.2 hcn,
      if_neg hnm.1]

theorem nameQ_eval_nil (nm : List Char) (hnm : NameTok nm) : nameQ nm = some [] := by
  have h1 : nm.takeWhile isNameChar = nm := by
    simpa using takeWhile_app isNameChar nm [] hnm.2 trivial
  have h2 : nm.dropWhile isNameChar = [] := by
    simpa using dropWhile_app isNameChar nm [] hnm.2 trivial
  unfold nameQ
  rw [h1, h2, if_neg hnm.1]

theorem nameQ_complete (t : List Char) (h : NameQLang t) : nameQ t = some [] := by
  obtain ⟨nm, hnm, hcase⟩ := h
  rcases hcase with heq | ⟨q, hq, heq⟩
  · rw [heq]
    exact nameQ_eval_nil nm hnm
  · rw [heq, nameQ_eval nm ':' q hnm (by decide), if_pos rfl]
    rcases hq with rfl | hq
    · rw [qualStep_latest]
    · rw [qualStep_tok q hq]

theorem nameQ_sound_full (t : List Char) (h : nameQ t = some []) : NameQLang t := by
  by_cases h0 : t.takeWhile isNameChar = []
  · unfold nameQ at h
    rw [if_pos h0] at h
    cases h
  · have hnm : NameTok (t.takeWhile isNameChar) := ⟨h0, fun c hc => List.mem_takeWhile_imp hc⟩
    have hsplit : t.takeWhile isNameChar ++ t.dropWhile isNameChar = t :=
      List.takeWhile_append_dropWhile isNameChar t
    cases hdw : t.dropWhile isNameChar with
    | nil =>
      rw [hdw] at hsplit
      exact ⟨_, hnm, Or.inl (hsplit.symm.trans (List.append_nil _))⟩
    | cons c rest =>
      have hcn : isNameChar c = false := dropWhile_head_false isNameChar t c rest hdw
      rw [hdw] at hsplit
      rw [← hsplit] at h
      rw [nameQ_eval _ c rest hnm hcn] at h
      by_cases hc : c = ':'
      · rw [if_pos hc] at h
        cases hqs : qualStep rest with
        | some v =>
          rw [hqs] at h
          injection h with h
          rw [h] at hqs
          refine ⟨_, hnm, Or.inr ⟨rest, qualStep_sound rest hqs, ?_⟩⟩
          rw [hc] at hsplit
          exact hsplit.symm
        | none =>
          rw [hqs] at h
          injection h with h
          cases h
      · rw [if_neg hc] at h
        injection h with h
        cases h

/-! ### Soundness and completeness of the leading-group matchers -/

theorem segD_sound (t u : List Char) (h : segD t = some u) : ∃ p, FunSeg p ∧ t = p ++ u :=
  ⟨"function:".toList, rfl, dropLit_sound _ _ _ h⟩

theorem segD_complete (p u : List Char) (h : FunSeg p) : segD (p ++ u) = some u := by
  rw [h]
  exact dropLit_complete _ _

theorem digitsN_sound : ∀ (n : Nat) (t u : List Char), digitsN n t = some u →
    ∃ ds, ds.length = n ∧ (∀ c ∈ ds, isDig c = true) ∧ t = ds ++ u := by
  intro n
  induction n with
  | zero =>
    intro t u h
    injection h with h
    exact ⟨[], rfl, by simp, by rw [h]; rfl⟩
  | succ n ih =>
    intro t u h
    cases t with
    | nil => cases h
    | cons c r =>
      simp only [digitsN] at h
      by_cases hc : isDig c = true
      · rw [if_pos hc] at h
        obtain ⟨ds, h1, h2, h3⟩ := ih r u h
        refine ⟨c :: ds, by simp [h1], ?_, by rw [List.cons_append, ← h3]⟩
        intro x hx
        rcases List.mem_cons.mp hx with rfl | hx
        · exact hc
        · exact h2 x hx
      · rw [if_neg hc] at h
        cases h

theorem digitsN_complete : ∀ (ds u : List Char), (∀ c ∈ ds, isDig c = true) →
    digitsN ds.length (ds ++ u) = some u := by
  intro ds
  induction ds with
  | nil => intro u _; rfl
  | cons c r ih =>
    intro u hall
    simp only [List.length_cons, List.cons_append, digitsN, hall c (by simp), if_true]
    exact ih u (fun x hx => hall x (by simp [hx]))

theorem segC_sound (t u : List Char) (h : segC t = some u) : ∃ p, AccountSeg p ∧ t = p ++ u := by
  unfold segC at h
  cases hd : digitsN 12 t with
  | none => rw [hd] at h; cases h
  | some r =>
    rw [hd] at h
    cases r with
    | nil => cases h
    | cons c u2 =>
      have h' : (if c = ':' then some u2 else none) = some u := h
      by_cases hc : c = ':'
      · rw [if_pos hc] at h'
        injection h' with h'
        subst h'
        obtain ⟨ds, h1, h2, h3⟩ := digitsN_sound 12 t (c :: u2) hd
        refine ⟨ds ++ [':'], ⟨ds, h1, h2, rfl⟩, ?_⟩
        rw [h3, hc]
        simp
      · rw [if_neg hc] at h'
        cases h'

theorem segC_complete (p u : List Char) (h : AccountSeg p) : segC (p ++ u) = some u := by
  obtain ⟨ds, h1, h2, h3⟩ := h
  subst h3
  unfold segC
  have hd : digitsN 12 ((ds ++ [':']) ++ u) = some (':' :: u) := by
    rw [← h1]
    have : (ds ++ [':']) ++ u = ds ++ (':' :: u) := by simp
    rw [this]
    exact digitsN_complete ds (':' :: u) h2
  rw [hd]
  rfl

theorem segA_sound (t u : List Char) (h : segA t = some u) : ∃ p, ArnSeg p ∧ t = p ++ u := by
  unfold segA at h
  cases hd : dropLit ("arn:".toList) t with
  | none => rw [hd] at h; cases h
  | some r =>
    rw [hd] at h
    have htr : t = "arn:".toList ++ r := dropLit_sound _ _ _ hd
    have h1 : (match dropLit ("aws".toList) r with
               | some r2 =>
                 match dropLit (":lambda:".toList) (r2.dropWhile isAwsChar) with
                 | some v => some v
                 | none => dropLit (":lambda:".toList) r
               | none => dropLit (":lambda:".toList) r) = some u := h
    cases hd2 : dropLit ("aws".toList) r with
    | some r2 =>
      rw [hd2] at h1
      have hr2 : r = "aws".toList ++ r2 := dropLit_sound _ _ _ hd2
      have h2 : (match dropLit (":lambda:".toList) (r2.dropWhile isAwsChar) with
                 | some v => some v
                 | none => dropLit (":lambda:".toList) r) = some u := h1
      cases hd3 : dropLit (":lambda:".toList) (r2.dropWhile isAwsChar) with
      | some u2 =>
        rw [hd3] at h2
        injection h2 with h2
        have hsplit : r2.takeWhile isAwsChar ++ r2.dropWhile isAwsChar = r2 :=
          List.takeWhile_append_dropWhile isAwsChar r2
        have hdW : r2.dropWhile isAwsChar = ":lambda:".toList ++ u2 := dropLit_sound _ _ _ hd3
        refine ⟨"arn:".toList ++ ('a' :: 'w' :: 's' :: r2.takeWhile isAwsChar) ++ ":lambda:".toList,
          ⟨'a' :: 'w' :: 's' :: r2.takeWhile isAwsChar,
           Or.inr ⟨r2.takeWhile isAwsChar, rfl, fun c hc => List.mem_takeWhile_imp hc⟩, rfl⟩, ?_⟩
        rw [htr, hr2]
        conv_lhs => rw [← hsplit]
        rw [hdW, h2]
        simp
      | none =>
        rw [hd3] at h2
        have hr' : r = ":lambda:".toList ++ u := dropLit_sound _ _ _ h2
        refine ⟨"arn:".toList ++ [] ++ ":lambda:".toList, ⟨[], Or.inl rfl, rfl⟩, ?_⟩
        rw [htr, hr']
        simp
    | none =>
      rw [hd2] at h1
      have hr' : r = ":lambda:".toList ++ u := dropLit_sound _ _ _ h1
      refine ⟨"arn:".toList ++ [] ++ ":lambda:".toList, ⟨[], Or.inl rfl, rfl⟩, ?_⟩
      rw [htr, hr']
      simp

theorem segA_complete (p u : List Char) (h : ArnSeg p) : segA (p ++ u) = some u := by
  obtain ⟨part, hpart, hp⟩ := h
  subst hp
  rcases hpart with rfl | ⟨cs, rfl, hall⟩
  · have h1 : ("arn:".toList ++ [] ++ ":lambda:".toList) ++ u =
        "arn:".toList ++ (":lambda:".toList ++ u) := by simp
    rw [h1]
    unfold segA
    rw [dropLit_complete ("arn:".toList) (":lambda:".toList ++ u)]
    show (match dropLit ("aws".toList) (":lambda:".toList ++ u) with
          | some r2 =>
            match dropLit (":lambda:".toList) (r2.dropWhile isAwsChar) with
            | some v => some v
            | none => dropLit (":lambda:".toList) (":lambda:".toList ++ u)
          | none => dropLit (":lambda:".toList) (":lambda:".toList ++ u)) = some u
    have hd2 : dropLit ("aws".toList) (":lambda:".toList ++ u) = none := rfl
    rw [hd2]
    exact dropLit_complete (":lambda:".toList) u
  · have h1 : ("arn:".toList ++ ('a' :: 'w' :: 's' :: cs) ++ ":lambda:".toList) ++ u =
        "arn:".toList ++ ("aws".toList ++ (cs ++ (":lambda:".toList ++ u))) := by simp
    rw [h1]
    unfold segA
    rw [dropLit_complete ("arn:".toList) ("aws".toList ++ (cs ++ (":lambda:".toList ++ u)))]
    show (match dropLit ("aws".toList) ("aws".toList ++ (cs ++ (":lambda:".toList ++ u))) with
          | some r2 =>
            match dropLit (":lambda:".toList) (r2.dropWhile isAwsChar) with
            | some v => some v
            | none => dropLit (":lambda:".toList) ("aws".toList ++ (cs ++ (":lambda:".toList ++ u)))
          | none => dropLit (":lambda:".toList) ("aws".toList ++ (cs ++ (":lambda:".toList ++ u)))) = some u
    rw [dropLit_complete ("aws".toList) (cs ++ (":lambda:".toList ++ u))]
    show (match dropLit (":lambda:".toList) ((cs ++ (":lambda:".toList ++ u)).dropWhile isAwsChar) with
          | some v => some v
          | none => dropLit (":lambda:".toList) ("aws".toList ++ (cs ++ (":lambda:".toList ++ u)))) = some u
    rw [dropWhile_app isAwsChar cs (":lambda:".toList ++ u) hall rfl,
        dropLit_complete (":lambda:".toList) u]

theorem isDig_not_isLow (c : Char) (h : isDig c = true) : isLow c = false := by
  simp only [isDig, Bool.and_eq_true, decide_eq_true_eq] at h
  simp only [isLow, Bool.and_eq_false_iff, decide_eq_false_iff_not]
  omega

theorem isLow_ne_dash (c : Char) (h : isLow c = true) : c ≠ '-' :=
  fun e => absurd (e ▸ h) (by decide)

theorem tailB_sound (r u : List Char) (h : tailB r = some u) :
    ∃ w dg, w ≠ [] ∧ (∀ c ∈ w, isLow c = true) ∧ isDig dg = true ∧
      r = '-' :: (w ++ '-' :: dg :: ':' :: u) := by
  unfold tailB at h
  cases r with
  | nil => cases h
  | cons c r1 =>
    have h' : (if c = '-' then
        (if r1.takeWhile isLow = [] then none
         else
           match r1.dropWhile isLow with
           | c2 :: dg :: c3 :: u2 =>
             if c2 = '-' && isDig dg && c3 = ':' then some u2 else none
           | _ => none)
      else none) = some u := h
    by_cases hc : c = '-'
    · rw [if_pos hc] at h'
      by_cases h0 : r1.takeWhile isLow = []
      · rw [if_pos h0] at h'; cases h'
      · rw [if_neg h0] at h'
        cases hdw : r1.dropWhile isLow with
        | nil => rw [hdw] at h'; cases h'
        | cons c2 rest2 =>
          cases rest2 with
          | nil => rw [hdw] at h'; cases h'
          | cons dg rest3 =>
            cases rest3 with
            | nil => rw [hdw] at h'; cases h'
            | cons c3 u2 =>
              rw [hdw] at h'
              have h'' : (if c2 = '-' && isDig dg && c3 = ':' then some u2 else none) = some u := h'
              by_cases hcond : (decide (c2 = '-') && isDig dg && decide (c3 = ':')) = true
              · rw [if_pos hcond] at h''
                injection h'' with h''
                simp only [Bool.and_eq_true, decide_eq_true_eq] at hcond
                obtain ⟨⟨hc2, hdg⟩, hc3⟩ := hcond
                refine ⟨r1.takeWhile isLow, dg, h0,
                  fun x hx => List.mem_takeWhile_imp hx, hdg, ?_⟩
                have hsplit : r1.takeWhile isLow ++ r1.dropWhile isLow = r1 :=
                  List.takeWhile_append_dropWhile isLow r1
                have hr1 : r1 = r1.takeWhile isLow ++ '-' :: dg :: ':' :: u := by
                  conv_lhs => rw [← hsplit]
                  rw [hdw, hc2, hc3, h'']
                conv_lhs => rw [hc, hr1]
              · rw [if_neg hcond] at h''
                cases h''
    · rw [if_neg hc] at h'
      cases h'

theorem tailB_complete (w : List Char) (dg : Char) (u : List Char)
    (hw : w ≠ []) (hall : ∀ c ∈ w, isLow c = true) (hdg : isDig dg = true) :
    tailB ('-' :: (w ++ '-' :: dg :: ':' :: u)) = some u := by
  have h1 : (w ++ '-' :: dg :: ':' :: u).takeWhile isLow = w :=
    takeWhile_app isLow w ('-' :: dg :: ':' :: u) hall rfl
  have h2 : (w ++ '-' :: dg :: ':' :: u).dropWhile isLow = '-' :: dg :: ':' :: u :=
    dropWhile_app isLow w ('-' :: dg :: ':' :: u) hall rfl
  show (if (w ++ '-' :: dg :: ':' :: u).takeWhile isLow = [] then none
        else
          match (w ++ '-' :: dg :: ':' :: u).dropWhile isLow with
          | c2 :: dg2 :: c3 :: u2 =>
            if c2 = '-' && isDig dg2 && c3 = ':' then some u2 else none
          | _ => none) = some u
  rw [h1, if_neg hw, h2]
  show (if '-' = '-' && isDig dg && ':' = ':' then some u else none) = some u
  rw [if_pos (by simp [hdg])]

theorem segB_sound (t u : List Char) (h : segB t = some u) : ∃ p, RegionSeg p ∧ t = p ++ u := by
  unfold segB at h
  cases t with
  | nil => cases h
  | cons c1 t1 =>
    cases t1 with
    | nil => cases h
    | cons c2 r =>
      have h' : (if isLow c1 && isLow c2 then
          (match dropLit ("-gov".toList) r with
           | some r2 =>
             match tailB r2 with
             | some u2 => some u2
             | none => tailB r
           | none => tailB r)
        else none) = some u := h
      by_cases hlow : (isLow c1 && isLow c2) = true
      · rw [if_pos hlow] at h'
        simp only [Bool.and_eq_true] at hlow
        obtain ⟨hl1, hl2⟩ := hlow
        cases hg : dropLit ("-gov".toList) r with
        | some r2 =>
          rw [hg] at h'
          have hrg : r = "-gov".toList ++ r2 := dropLit_sound _ _ _ hg
          have h2 : (match tailB r2 with
              | some u2 => some u2
              | none => tailB r) = some u := h'
          cases htb : tailB r2 with
          | some u2 =>
            rw [htb] at h2
            injection h2 with h2
            obtain ⟨w, dg, hw, hall, hdg, hr2⟩ := tailB_sound r2 u2 htb
            refine ⟨c1 :: c2 :: ("-gov".toList ++ '-' :: (w ++ '-' :: dg :: [':'])),
              ⟨c1, c2, "-gov".toList, w, dg, hl1, hl2, Or.inr rfl, hw, hall, hdg, rfl⟩, ?_⟩
            rw [hrg, hr2, h2]
            simp
          | none =>
            rw [htb] at h2
            obtain ⟨w, dg, hw, hall, hdg, hr⟩ := tailB_sound r u h2
            refine ⟨c1 :: c2 :: ([] ++ '-' :: (w ++ '-' :: dg :: [':'])),
              ⟨c1, c2, [], w, dg, hl1, hl2, Or.inl rfl, hw, hall, hdg, rfl⟩, ?_⟩
            rw [hr]
            simp
        | none =>
          rw [hg] at h'
          obtain ⟨w, dg, hw, hall, hdg, hr⟩ := tailB_sound r u h'
          refine ⟨c1 :: c2 :: ([] ++ '-' :: (w ++ '-' :: dg :: [':'])),
            ⟨c1, c2, [], w, dg, hl1, hl2, Or.inl rfl, hw, hall, hdg, rfl⟩, ?_⟩
          rw [hr]
          simp
      · rw [if_neg hlow] at h'
        cases h'

theorem segB_complete (p u : List Char) (h : RegionSeg p) : segB (p ++ u) = some u := by
  obtain ⟨c1, c2, gov, w, dg, hl1, hl2, hgov, hw, hall, hdg, hp⟩ := h
  subst hp
  suffices hsuf : (if isLow c1 && isLow c2 then
      (match dropLit ("-gov".toList) ((gov ++ '-' :: (w ++ '-' :: dg :: [':'])) ++ u) with
       | some r2 =>
         match tailB r2 with
         | some u2 => some u2
         | none => tailB ((gov ++ '-' :: (w ++ '-' :: dg :: [':'])) ++ u)
       | none => tailB ((gov ++ '-' :: (w ++ '-' :: dg :: [':'])) ++ u))
    else none) = some u by exact hsuf
  rw [if_pos (by simp [hl1, hl2])]
  rcases hgov with rfl | rfl
  · have hr : ([] ++ '-' :: (w ++ '-' :: dg :: [':'])) ++ u =
        '-' :: (w ++ '-' :: dg :: ':' :: u) := by simp
    rw [hr]
    cases hg : dropLit ("-gov".toList) ('-' :: (w ++ '-' :: dg :: ':' :: u)) with
    | some r2 =>
      show (match tailB r2 with
            | some u2 => some u2
            | none => tailB ('-' :: (w ++ '-' :: dg :: ':' :: u))) = some u
      have hrg := dropLit_sound _ _ _ hg
      injection hrg with _ hrg
      cases w with
      | nil =>
        injection hrg with h9 _
        exact absurd h9 (by decide)
      | cons a w1 =>
        injection hrg with ha hrg
        cases w1 with
        | nil =>
          injection hrg with hb _
          exact absurd hb (by decide)
        | cons b w2 =>
          injection hrg with hb hrg
          cases w2 with
          | nil =>
            injection hrg with hx _
            exact absurd hx (by decide)
          | cons cc w3 =>
            injection hrg with hcc hrg
            have hw3 : ∀ x ∈ w3, isLow x = true :=
              fun x hx => hall x (by simp [hx])
            have hrg2 : w3 ++ ('-' :: dg :: ':' :: u) = r2 := hrg
            have htb : tailB r2 = none := by
              rw [← hrg2]
              cases w3 with
              | nil =>
                have hdglow : isLow dg = false := isDig_not_isLow dg hdg
                have ht0 : (dg :: ':' :: u).takeWhile isLow = [] := by
                  simp [List.takeWhile_cons, hdglow]
                exact if_pos ht0
              | cons x w4 =>
                have hx : isLow x = true := hw3 x (by simp)
                exact if_neg (isLow_ne_dash x hx)
            rw [htb]
            exact tailB_complete (a :: b :: cc :: w3) dg u hw hall hdg
    | none =>
      exact tailB_complete w dg u hw hall hdg
  · have hr : (("-gov".toList ++ '-' :: (w ++ '-' :: dg :: [':'])) ++ u) =
        "-gov".toList ++ ('-' :: (w ++ '-' :: dg :: ':' :: u)) := by simp
    rw [hr, dropLit_complete ("-gov".toList) ('-' :: (w ++ '-' :: dg :: ':' :: u))]
    show (match tailB ('-' :: (w ++ '-' :: dg :: ':' :: u)) with
          | some u2 => some u2
          | none => tailB ("-gov".toList ++ ('-' :: (w ++ '-' :: dg :: ':' :: u)))) = some u
    rw [tailB_complete w dg u hw hall hdg]

/-! ### The priority (star) lemmas: a colon-terminated leading group never
steals a full match from the skip side. -/

theorem star_tail (body u : List Char) (_hb : body ≠ [])
    (hball : ∀ c ∈ body, isNameChar c = true)
    (h : NameQLang (body ++ ':' :: u)) : NameQLang u ∨ u = "$LATEST".toList := by
  obtain ⟨nm, hnm, hcase⟩ := h
  rcases hcase with heq | ⟨q, hq, heq⟩
  · exfalso
    apply nameTok_no_colon nm hnm
    rw [← heq]
    simp
  · obtain ⟨hb2, hu⟩ := firstColon body nm u q heq
      (fun hc => absurd (hball ':' hc) (by decide)) (nameTok_no_colon nm hnm)
    rcases hq with hq | hq
    · exact Or.inr (hu.trans hq)
    · left
      subst hu
      exact ⟨u, hq, Or.inl rfl⟩

theorem accountSeg_head (p : List Char) (h : AccountSeg p) :
    ∃ d rest2, p = d :: rest2 ∧ isDig d = true := by
  obtain ⟨ds, hlen, hds, hp⟩ := h
  cases ds with
  | nil => exact absurd hlen (by decide)
  | cons d ds2 => exact ⟨d, ds2 ++ [':'], by rw [hp]; rfl, hds d (by simp)⟩

theorem regionSeg_shape (p : List Char) (h : RegionSeg p) :
    ∃ c1 c2 rest2, isLow c1 = true ∧ isLow c2 = true ∧ p = c1 :: c2 :: '-' :: rest2 := by
  obtain ⟨c1, c2, gov, w, dg, hl1, hl2, hgov, hw, hall, hdg, hp⟩ := h
  rcases hgov with rfl | rfl
  · exact ⟨c1, c2, w ++ '-' :: dg :: [':'], hl1, hl2, by rw [hp]; rfl⟩
  · exact ⟨c1, c2, 'g' :: 'o' :: 'v' :: ('-' :: (w ++ '-' :: dg :: [':'])), hl1, hl2,
      by rw [hp]; rfl⟩

theorem regionSeg_body (p : List Char) (h : RegionSeg p) :
    ∃ body, body ≠ [] ∧ (∀ c ∈ body, isNameChar c = true) ∧ p = body ++ [':'] := by
  obtain ⟨c1, c2, gov, w, dg, hl1, hl2, hgov, hw, hall, hdg, hp⟩ := h
  refine ⟨c1 :: c2 :: (gov ++ '-' :: (w ++ '-' :: [dg])), by simp, ?_, ?_⟩
  · intro x hx
    simp only [List.mem_cons, List.mem_append, List.mem_singleton, List.not_mem_nil,
      or_false] at hx
    rcases hx with rfl | rfl | hg | rfl | hw2 | rfl | rfl
    · exact isLow_isNameChar _ hl1
    · exact isLow_isNameChar _ hl2
    · rcases hgov with rfl | rfl
      · simp at hg
      · have hg4 : x = '-' ∨ x = 'g' ∨ x = 'o' ∨ x = 'v' := by simpa using hg
        rcases hg4 with rfl | rfl | rfl | rfl <;> decide
    · decide
    · exact isLow_isNameChar _ (hall x hw2)
    · decide
    · exact isDig_isNameChar _ hdg
  · rw [hp]
    simp

theorem starD_cond : ∀ t u, segDS.fn t = some u → FullM [] t →
    FullM [] u ∨ runFrom [] u = none := by
  intro t u hf h
  have ht : t = "function:".toList ++ u := dropLit_sound _ _ _ hf
  have h' : NameQLang t := h
  rw [ht] at h'
  have h'' : NameQLang ("function".toList ++ ':' :: u) := h'
  rcases star_tail ("function".toList) u (by decide) (by decide) h'' with hn | hl
  · exact Or.inl hn
  · right
    rw [hl]
    decide

theorem starC_cond : ∀ t u, segCS.fn t = some u → FullM [segDS] t →
    FullM [segDS] u ∨ runFrom [segDS] u = none := by
  intro t u hf h
  obtain ⟨p, hp, ht⟩ := segC_sound t u hf
  obtain ⟨ds, hlen, hds, hps⟩ := hp
  have h' : (∃ q u2, FunSeg q ∧ t = q ++ u2 ∧ NameQLang u2) ∨ NameQLang t := h
  rcases h' with ⟨q, u2, hq, htq, _⟩ | hnq
  · exfalso
    cases ds with
    | nil => exact absurd hlen (by decide)
    | cons d ds2 =>
      rw [hq] at htq
      rw [hps] at ht
      have h9 : d :: ((ds2 ++ [':']) ++ u) = 'f' :: ("unction:".toList ++ u2) :=
        ht.symm.trans htq
      injection h9 with h91 _
      have hd := hds d (by simp)
      rw [h91] at hd
      exact absurd hd (by decide)
  · rw [ht, hps] at hnq
    have hnq' : NameQLang (ds ++ ':' :: u) := by
      have he : (ds ++ [':']) ++ u = ds ++ ':' :: u := by simp
      rw [he] at hnq
      exact hnq
    have hdsne : ds ≠ [] := by
      intro e
      rw [e] at hlen
      exact absurd hlen (by decide)
    rcases star_tail ds u hdsne (fun c hc => isDig_isNameChar c (hds c hc)) hnq' with hn | hl
    · exact Or.inl (Or.inr hn)
    · right
      rw [hl]
      decide

theorem starB_cond : ∀ t u, segBS.fn t = some u → FullM [segCS, segDS] t →
    FullM [segCS, segDS] u ∨ runFrom [segCS, segDS] u = none := by
  intro t u hf h
  obtain ⟨p, hp, ht⟩ := segB_sound t u hf
  obtain ⟨body, hbne, hball, hpb⟩ := regionSeg_body p hp
  obtain ⟨c1, c2, rest2, hl1, hl2, hshape⟩ := regionSeg_shape p hp
  have h' : (∃ q u2, AccountSeg q ∧ t = q ++ u2 ∧ FullM [segDS] u2) ∨ FullM [segDS] t := h
  rcases h' with ⟨q, u2, hq, htq, _⟩ | h2
  · exfalso
    obtain ⟨d, r3, hqd, hdig⟩ := accountSeg_head q hq
    rw [ht, hshape, hqd] at htq
    have h9 : c1 :: (c2 :: '-' :: rest2 ++ u) = d :: (r3 ++ u2) := htq
    injection h9 with h91 _
    have hlo := isLow_not_isDig c1 hl1
    rw [h91] at hlo
    rw [hdig] at hlo
    exact Bool.noConfusion hlo
  · have h2' : (∃ q u2, FunSeg q ∧ t = q ++ u2 ∧ NameQLang u2) ∨ NameQLang t := h2
    rcases h2' with ⟨q, u2, hq, htq, _⟩ | hnq
    · exfalso
      rw [hq, ht, hshape] at htq
      have h9 : c1 :: c2 :: '-' :: (rest2 ++ u) = 'f' :: 'u' :: 'n' :: ("ction:".toList ++ u2) := htq
      injection h9 with _ h9
      injection h9 with _ h9
      injection h9 with h9 _
      exact absurd h9 (by decide)
    · rw [ht, hpb] at hnq
      have hnq' : NameQLang (body ++ ':' :: u) := by
        have he : (body ++ [':']) ++ u = body ++ ':' :: u := by simp
        rw [he] at hnq
        exact hnq
      rcases star_tail body u hbne hball hnq' with hn | hl
      · exact Or.inl (Or.inr (Or.inr hn))
      · right
        rw [hl]
        decide

theorem starA_cond : ∀ t u, segAS.fn t = some u → FullM [segBS, segCS, segDS] t →
    FullM [segBS, segCS, segDS] u ∨ runFrom [segBS, segCS, segDS] u = none := by
  intro t u hf h
  exfalso
  obtain ⟨p, hp, ht⟩ := segA_sound t u hf
  obtain ⟨part, hpart, hps⟩ := hp
  rw [hps] at ht
  have h' : (∃ q u2, RegionSeg q ∧ t = q ++ u2 ∧ FullM [segCS, segDS] u2) ∨
      FullM [segCS, segDS] t := h
  rcases h' with ⟨q, u2, hq, htq, _⟩ | h2
  · obtain ⟨c1, c2, rest2, hl1, hl2, hshape⟩ := regionSeg_shape q hq
    rw [ht, hshape] at htq
    have h9 : ('a' : Char) :: 'r' :: 'n' :: (':' :: ((([] ++ part) ++ ":lambda:".toList) ++ u)) =
        c1 :: c2 :: '-' :: (rest2 ++ u2) := htq
    injection h9 with _ h9
    injection h9 with _ h9
    injection h9 with h9 _
    exact absurd h9 (by decide)
  · have h2' : (∃ q u2, AccountSeg q ∧ t = q ++ u2 ∧ FullM [segDS] u2) ∨ FullM [segDS] t := h2
    rcases h2' with ⟨q, u2, hq, htq, _⟩ | h3
    · obtain ⟨d, r3, hqd, hdig⟩ := accountSeg_head q hq
      rw [ht, hqd] at htq
      have h9 : ('a' : Char) :: ('r' :: 'n' :: ':' :: ((([] ++ part) ++ ":lambda:".toList) ++ u)) =
          d :: (r3 ++ u2) := htq
      injection h9 with h91 _
      rw [← h91] at hdig
      exact absurd hdig (by decide)
    · have h3' : (∃ q u2, FunSeg q ∧ t = q ++ u2 ∧ NameQLang u2) ∨ NameQLang t := h3
      rcases h3' with ⟨q, u2, hq, htq, _⟩ | hnq
      · rw [hq, ht] at htq
        have h9 : ('a' : Char) :: ('r' :: 'n' :: ':' :: ((([] ++ part) ++ ":lambda:".toList) ++ u)) =
            'f' :: ("unction:".toList ++ u2) := htq
        injection h9 with h91 _
        exact absurd h91 (by decide)
      · rw [ht] at hnq
        have hnq' : NameQLang ("arn".toList ++ ':' :: ((([] ++ part) ++ ":lambda:".toList) ++ u)) := hnq
        obtain ⟨nm, hnm, hcase⟩ := hnq'
        rcases hcase with heq | ⟨q2, hq2, heq⟩
        · apply nameTok_no_colon nm hnm
          rw [← heq]
          simp
        · obtain ⟨_, hq2eq⟩ := firstColon ("arn".toList) nm
            ((([] ++ part) ++ ":lambda:".toList) ++ u) q2 heq
            (by decide) (nameTok_no_colon nm hnm)
          have hcol : ':' ∈ q2 := by
            rw [← hq2eq]
            have hmem : (':' : Char) ∈ ":lambda:".toList := by decide
            exact List.mem_append_left u (List.mem_append_right ([] ++ part) hmem)
          rcases hq2 with rfl | hq2
          · exact absurd hcol (by decide)
          · exact nameTok_no_colon q2 hq2 hcol

/-! ### The backtracking search against the full-match semantics -/

theorem run_sound : ∀ (fs : List SegS), ChainGood fs → ∀ t,
    runFrom fs t = some [] → FullM fs t := by
  intro fs
  induction fs with
  | nil => intro _ t h; exact nameQ_sound_full t h
  | cons f rest ih =>
    intro hg t h
    obtain ⟨hs, hc, hrest⟩ := hg
    unfold runFrom at h
    cases hf : f.fn t with
    | some u =>
      rw [hf] at h
      have h2 : (match runFrom rest u with
          | some r => some r
          | none => runFrom rest t) = some ([] : List Char) := h
      cases hr : runFrom rest u with
      | some r =>
        rw [hr] at h2
        injection h2 with h2
        subst h2
        obtain ⟨p, hp, ht⟩ := hs t u hf
        exact Or.inl ⟨p, u, hp, ht, ih hrest u hr⟩
      | none =>
        rw [hr] at h2
        exact Or.inr (ih hrest t h2)
    | none =>
      rw [hf] at h
      exact Or.inr (ih hrest t h)

theorem run_full : ∀ (fs : List SegS), ChainGood fs → StarChain fs → ∀ t,
    FullM fs t → runFrom fs t = some [] := by
  intro fs
  induction fs with
  | nil => intro _ _ t h; exact nameQ_complete t h
  | cons f rest ih =>
    intro hg hst t h
    obtain ⟨hs, hc, hrest⟩ := hg
    obtain ⟨hstar, hstrest⟩ := hst
    have h' : (∃ p u, f.lang p ∧ t = p ++ u ∧ FullM rest u) ∨ FullM rest t := h
    show (match f.fn t with
          | some u =>
            match runFrom rest u with
            | some r => some r
            | none => runFrom rest t
          | none => runFrom rest t) = some []
    cases hf : f.fn t with
    | some u =>
      rcases h' with ⟨p, u2, hp, ht, hfull⟩ | hsk
      · have hfc : f.fn t = some u2 := by rw [ht]; exact hc p u2 hp
        rw [hf] at hfc
        injection hfc with hfc
        have hru : runFrom rest u = some [] := by
          rw [hfc]
          exact ih hrest hstrest u2 hfull
        show (match runFrom rest u with
              | some r => some r
              | none => runFrom rest t) = some []
        rw [hru]
      · rcases hstar t u hf hsk with hfu | hnone
        · have hru := ih hrest hstrest u hfu
          show (match runFrom rest u with
                | some r => some r
                | none => runFrom rest t) = some []
          rw [hru]
        · show (match runFrom rest u with
                | some r => some r
                | none => runFrom rest t) = some []
          rw [hnone]
          exact ih hrest hstrest t hsk
    | none =>
      rcases h' with ⟨p, u2, hp, ht, hfull⟩ | hsk
      · exfalso
        have hfc : f.fn t = some u2 := by rw [ht]; exact hc p u2 hp
        rw [hf] at hfc
        cases hfc
      · exact ih hrest hstrest t hsk

theorem chainGood_segChain : ChainGood segChain :=
  ⟨segA_sound, segA_complete, segB_sound, segB_complete, segC_sound, segC_complete,
   segD_sound, segD_complete, trivial⟩

theorem starChain_segChain : StarChain segChain :=
  ⟨starA_cond, starB_cond, starC_cond, starD_cond, trivial⟩

/-! ### The declarative grammar against the full-match semantics -/

theorem fullm_of_grammar (l : List Char) (h : ValidGrammar l) : FullM segChain l := by
  obtain ⟨a, b, c, d, nq, ha, hb, hc, hd, hnq, hl⟩ := h
  subst hl
  have h4 : FullM [] nq := hnq
  have h3 : FullM [segDS] (d ++ nq) := by
    rcases hd with rfl | hd
    · exact Or.inr h4
    · exact Or.inl ⟨d, nq, hd, rfl, h4⟩
  have h2 : FullM [segCS, segDS] (c ++ (d ++ nq)) := by
    rcases hc with rfl | hc
    · exact Or.inr h3
    · exact Or.inl ⟨c, d ++ nq, hc, rfl, h3⟩
  have h1 : FullM [segBS, segCS, segDS] (b ++ (c ++ (d ++ nq))) := by
    rcases hb with rfl | hb
    · exact Or.inr h2
    · exact Or.inl ⟨b, _, hb, rfl, h2⟩
  rcases ha with rfl | ha
  · exact Or.inr h1
  · exact Or.inl ⟨a, _, ha, rfl, h1⟩

theorem grammar_of_fullm (l : List Char) (h : FullM segChain l) : ValidGrammar l := by
  have h1 : (∃ p u, ArnSeg p ∧ l = p ++ u ∧ FullM [segBS, segCS, segDS] u) ∨
      FullM [segBS, segCS, segDS] l := h
  have step1 : ∃ a u1, (a = [] ∨ ArnSeg a) ∧ l = a ++ u1 ∧ FullM [segBS, segCS, segDS] u1 := by
    rcases h1 with ⟨a, u1, ha, hla, h2⟩ | h2
    · exact ⟨a, u1, Or.inr ha, hla, h2⟩
    · exact ⟨[], l, Or.inl rfl, rfl, h2⟩
  obtain ⟨a, u1, ha, hla, h2⟩ := step1
  have h2' : (∃ p u, RegionSeg p ∧ u1 = p ++ u ∧ FullM [segCS, segDS] u) ∨
      FullM [segCS, segDS] u1 := h2
  have step2 : ∃ b u2, (b = [] ∨ RegionSeg b) ∧ u1 = b ++ u2 ∧ FullM [segCS, segDS] u2 := by
    rcases h2' with ⟨b, u2, hb, hub, h3⟩ | h3
    · exact ⟨b, u2, Or.inr hb, hub, h3⟩
    · exact ⟨[], u1, Or.inl rfl, rfl, h3⟩
  obtain ⟨b, u2, hb, hub, h3⟩ := step2
  have h3' : (∃ p u, AccountSeg p ∧ u2 = p ++ u ∧ FullM [segDS] u) ∨ FullM [segDS] u2 := h3
  have step3 : ∃ c u3, (c = [] ∨ AccountSeg c) ∧ u2 = c ++ u3 ∧ FullM [segDS] u3 := by
    rcases h3' with ⟨c, u3, hc, huc, h4⟩ | h4
    · exact ⟨c, u3, Or.inr hc, huc, h4⟩
    · exact ⟨[], u2, Or.inl rfl, rfl, h4⟩
  obtain ⟨c, u3, hc, huc, h4⟩ := step3
  have h4' : (∃ p u, FunSeg p ∧ u3 = p ++ u ∧ NameQLang u) ∨ NameQLang u3 := h4
  have step4 : ∃ d u4, (d = [] ∨ FunSeg d) ∧ u3 = d ++ u4 ∧ NameQLang u4 := by
    rcases h4' with ⟨d, u4, hd, hud, h5⟩ | h5
    · exact ⟨d, u4, Or.inr hd, hud, h5⟩
    · exact ⟨[], u3, Or.inl rfl, rfl, h5⟩
  obtain ⟨d, u4, hd, hud, h5⟩ := step4
  exact ⟨a, b, c, d, u4, ha, hb, hc, hd, h5, by rw [hla, hub, huc, hud]⟩

/-- C1: is_valid_name accepts a string exactly when it is nonempty and the
whole string is in the naming grammar: optional arn/partition prefix,
optional region segment xx[-gov]-word-digit, optional 12-digit account
segment, optional literal function: tag, then a name token of letters,
digits, hyphens and underscores with an optional colon-separated qualifier
that is either the literal $LATEST marker or a version/alias token (a bare
name is the case with every optional part absent); None and the empty
string are rejected, as is any string with characters beyond the match. -/
theorem is_valid_name_iff_grammar :
    is_valid_name none = false ∧
    ∀ s : String, is_valid_name (some s) = true ↔ s ≠ "" ∧ ValidGrammar s.toList := by
  refine ⟨rfl, fun s => ⟨?_, ?_⟩⟩
  · intro h
    have h0 : (if s = "" then false
        else
          match runFrom segChain s.toList with
          | some [] => true
          | _ => false) = true := h
    by_cases hs : s = ""
    · rw [if_pos hs] at h0
      exact Bool.noConfusion h0
    · have h' : (match runFrom segChain s.toList with
          | some [] => true
          | _ => false) = true := by
        rw [if_neg hs] at h0
        exact h0
      cases hrun : runFrom segChain s.toList with
      | none =>
        rw [hrun] at h'
        exact Bool.noConfusion h'
      | some r =>
        cases r with
        | nil =>
          exact ⟨hs, grammar_of_fullm _ (run_sound segChain chainGood_segChain _ hrun)⟩
        | cons x xs =>
          rw [hrun] at h'
          exact Bool.noConfusion h'
  · rintro ⟨hs, hg⟩
    have hr := run_full segChain chainGood_segChain starChain_segChain _ (fullm_of_grammar _ hg)
    show (if s = "" then false
        else
          match runFrom segChain s.toList with
          | some [] => true
          | _ => false) = true
    rw [if_neg hs, hr]
